import Mathlib

/-!
# Sensor drivers `ltr329als01` (ambient light) and `si7006` (temperature / humidity)

A shallow embedding of `drivers/sensor/ltr329als01/ltr329als01.c` and
`drivers/sensor/si7006/si7006.c`, and theorems about it.

* The I2C transport is a parameter: a bus is an oracle that answers the k-th
  transaction, together with the trace of the transactions performed so far.
* C `float` and `double` objects are modelled exactly: a finite value is the
  rational number it denotes, every arithmetic operation is the exact rational
  operation followed by IEEE-754 rounding to nearest, ties to even, in the
  format of the operation (binary32 for `float`, binary64 for `double`,
  each expression evaluated in the format of its type).
* Conversions from a floating value to an integer type are partial: they are
  undefined in C when the truncated value does not fit the target type.
-/

namespace Sensor

/-! ## Floating-point values -/

/-- Value of a C floating object: not-a-number, an infinity, or a finite value given by
the rational number it denotes. The sign of a zero is not recorded: every zero that the
drivers divide by is a converted non-negative integer, hence a positive zero. -/
inductive FloatVal where
  | nan : FloatVal
  | inf (neg : Bool) : FloatVal
  | fin (q : ℚ) : FloatVal
deriving DecidableEq

/-- Binary floating-point format: precision in bits, smallest and largest exponent of a
normal number. -/
structure FloatFormat where
  prec : ℕ
  emin : ℤ
  emax : ℤ

/-- IEEE-754 single precision, the C type `float`. -/
def binary32 : FloatFormat := ⟨24, -126, 127⟩

/-- IEEE-754 double precision, the C type `double`. -/
def binary64 : FloatFormat := ⟨53, -1022, 1023⟩

/-- Nearest integer, ties to the even one. -/
def roundHalfEven (y : ℚ) : ℤ :=
  let f := ⌊y⌋
  if y - f < 1 / 2 then f
  else if 1 / 2 < y - f then f + 1
  else if f % 2 = 0 then f else f + 1

/-- The power `2^k` of an integer exponent, as a rational, through powers of natural
numbers. -/
def pow2 (k : ℤ) : ℚ :=
  if 0 ≤ k then ((2 ^ k.toNat : ℕ) : ℚ) else 1 / ((2 ^ (-k).toNat : ℕ) : ℚ)

/-- Position of the leading binary digit of `n`, that is `⌊log₂ n⌋` for `n ≥ 1`, by
recursion on a fuel argument. -/
def log2Aux : ℕ → ℕ → ℕ
  | 0, _ => 0
  | fuel + 1, n => if 2 ≤ n then log2Aux fuel (n / 2) + 1 else 0

/-- Position of the leading binary digit of `n`. -/
def natLog2 (n : ℕ) : ℕ := log2Aux n n

/-- Binary exponent of a positive rational `x`: the integer `e` with `2^e ≤ x < 2^(e+1)`. -/
def ilog2 (x : ℚ) : ℤ :=
  let k : ℤ := (natLog2 x.num.natAbs : ℤ) - (natLog2 x.den : ℤ)
  if pow2 k ≤ x then k else k - 1

/-- Rounding of a rational to the nearest number with `p` significant bits whose exponent
is not below `emin` (so that small numbers round on the subnormal grid); the exponent is
not bounded above here. -/
def roundTo (p : ℕ) (emin : ℤ) (x : ℚ) : ℚ :=
  if x = 0 then 0 else
  let e := max (ilog2 |x|) emin
  let ulp : ℚ := pow2 (e - (p - 1))
  roundHalfEven (x / ulp) * ulp

/-- Rounding to a format: a result beyond the largest finite number is an infinity. -/
def FloatFormat.round (f : FloatFormat) (x : ℚ) : FloatVal :=
  let r := roundTo f.prec f.emin x
  if pow2 (f.emax + 1) ≤ |r| then .inf (decide (r < 0)) else .fin r

/-- Floating addition in format `f`. -/
def fadd (f : FloatFormat) : FloatVal → FloatVal → FloatVal
  | .fin x, .fin y => f.round (x + y)
  | .inf s, .inf t => if s = t then .inf s else .nan
  | .inf s, .fin _ => .inf s
  | .fin _, .inf t => .inf t
  | _, _ => .nan

/-- Floating subtraction in format `f`. -/
def fsub (f : FloatFormat) : FloatVal → FloatVal → FloatVal
  | .fin x, .fin y => f.round (x - y)
  | .inf s, .inf t => if s = t then .nan else .inf s
  | .inf s, .fin _ => .inf s
  | .fin _, .inf t => .inf (!t)
  | _, _ => .nan

/-- Floating multiplication in format `f`. -/
def fmul (f : FloatFormat) : FloatVal → FloatVal → FloatVal
  | .fin x, .fin y => f.round (x * y)
  | .inf s, .inf t => .inf (xor s t)
  | .inf s, .fin y => if y = 0 then .nan else .inf (xor s (decide (y < 0)))
  | .fin x, .inf t => if x = 0 then .nan else .inf (xor (decide (x < 0)) t)
  | _, _ => .nan

/-- Floating division in format `f`; a zero divisor is a positive zero. -/
def fdiv (f : FloatFormat) : FloatVal → FloatVal → FloatVal
  | .fin x, .fin y =>
    if y = 0 then (if x = 0 then .nan else .inf (decide (x < 0))) else f.round (x / y)
  | .inf _, .inf _ => .nan
  | .inf s, .fin y => .inf (xor s (decide (y < 0)))
  | .fin _, .inf _ => .fin 0
  | _, _ => .nan

/-- The C comparison `a < b`; false when an operand is not a number. -/
def flt : FloatVal → FloatVal → Bool
  | .fin x, .fin y => decide (x < y)
  | .inf s, .inf t => s && !t
  | .inf s, .fin _ => s
  | .fin _, .inf t => !t
  | _, _ => false

/-- The C comparison `a >= b`; false when an operand is not a number. -/
def fge : FloatVal → FloatVal → Bool
  | .fin x, .fin y => decide (y ≤ x)
  | .inf s, .inf t => !s || t
  | .inf s, .fin _ => !s
  | .fin _, .inf t => t
  | _, _ => false

/-- Conversion of an integer to a floating type of format `f`. -/
def int_to_float (f : FloatFormat) (n : ℤ) : FloatVal := f.round n

/-- A decimal floating constant without suffix has type `double`: the nearest binary64. -/
def lit64 (q : ℚ) : FloatVal := binary64.round q

/-- Conversion of a `double` to `float` (assignment to a `float` object). -/
def to_float : FloatVal → FloatVal
  | .fin q => binary32.round q
  | v => v

/-- Integer part of a rational, rounding toward zero. -/
def truncate (q : ℚ) : ℤ := if 0 ≤ q then ⌊q⌋ else ⌈q⌉

/-- Conversion of a floating value to an integer type with range `lo..hi`: the fraction is
discarded; the conversion is undefined (no result) when the value is not finite or its
integer part is outside the range. -/
def float_to_int (lo hi : ℤ) : FloatVal → Option ℤ
  | .fin q => if lo ≤ truncate q ∧ truncate q ≤ hi then some (truncate q) else none
  | _ => none

/-- Conversion to `uint16_t`. -/
def float_to_u16 (v : FloatVal) : Option ℤ := float_to_int 0 65535 v

/-- Conversion to `s32_t`. -/
def float_to_s32 (v : FloatVal) : Option ℤ := float_to_int (-2147483648) 2147483647 v

/-- Conversion to `s64_t`. -/
def float_to_s64 (v : FloatVal) : Option ℤ :=
  float_to_int (-9223372036854775808) 9223372036854775807 v

/-! ## The I2C transport -/

/-- One bus transaction as issued by the drivers: a register-addressed read of `len`
bytes (address write phase, then read phase with stop), or a two-byte write. -/
inductive I2cMsg where
  | read (dev reg len : ℕ) : I2cMsg
  | write (dev reg val : ℕ) : I2cMsg
deriving DecidableEq

/-- What `i2c_transfer` leaves behind: its return code (0 on success) and the content of
the receive buffer afterwards (after a failed transfer, whatever the buffer holds). -/
structure I2cReply where
  rc : ℤ
  data : List ℕ

/-- Modelled from the spec: the bus-transfer transport (`i2c_transfer` of the host), an
external collaborator that performs an addressed write and/or read phase and reports
success or failure. `reply k m` is the outcome when the k-th transaction on the bus is `m`;
`trace` lists the transactions performed so far, oldest first. -/
structure I2cBus where
  reply : ℕ → I2cMsg → I2cReply
  trace : List I2cMsg

/-- One call of `i2c_transfer`. -/
def i2c_transfer (bus : I2cBus) (m : I2cMsg) : I2cReply × I2cBus :=
  (bus.reply bus.trace.length m, { bus with trace := bus.trace ++ [m] })

/-! ## Host constants and types -/

/-- Modelled from the spec: channel selectors of the host `enum sensor_channel`; `other`
stands for every selector the two drivers do not name. -/
inductive sensor_channel where
  | SENSOR_CHAN_AMBIENT_TEMP : sensor_channel
  | SENSOR_CHAN_HUMIDITY : sensor_channel
  | SENSOR_CHAN_LIGHT : sensor_channel
  | SENSOR_CHAN_ALL : sensor_channel
  | other (n : ℕ) : sensor_channel
deriving DecidableEq

/-- Host `struct sensor_value`: integer part and millionths. -/
structure sensor_value where
  val1 : ℤ
  val2 : ℤ
deriving DecidableEq

/-- Host errno constant `EAGAIN`. -/
def EAGAIN : ℤ := 11

/-- Host errno constant `ENOTSUP`. -/
def ENOTSUP : ℤ := 35

/-- Host errno constant `EINVAL`. -/
def EINVAL : ℤ := 22

/-- Host errno constant `EIO`. -/
def EIO : ℤ := 5

/-! ## ltr329als01.h -/

def ALS_ADDR : ℕ := 0x29
def ALS_CONTR_REG : ℕ := 0x80
def ALS_MEAS_RATE_REG : ℕ := 0x85
def PART_ID_REG : ℕ := 0x86
def MANUFAC_ID_REG : ℕ := 0x87
def ALS_DATA_CH1_0_REG : ℕ := 0x88
def ALS_DATA_CH1_1_REG : ℕ := 0x89
def ALS_DATA_CH0_0_REG : ℕ := 0x8A
def ALS_DATA_CH0_1_REG : ℕ := 0x8B
def ALS_STATUS_REG : ℕ := 0x8C

/-- Sentinel of the gain table, `#define RESERVED -1`. -/
def RESERVED : ℤ := -1

/-! ## ltr329als01.c -/

/-- Driver data `struct ltr329als01_data`; `lux_val` is a `uint16_t`. -/
structure ltr329als01_data where
  i2c_dev : I2cBus
  lux_val : ℕ

/-- Source `write_byte`: one transaction sending `[addr, data]`; returns the code of the
transfer. -/
def write_byte (i2c_dev : I2cBus) (addr data : ℕ) : ℤ × I2cBus :=
  let r := i2c_transfer i2c_dev (.write ALS_ADDR addr data)
  (r.1.rc, r.2)

/-- Source `read_byte`: one combined transaction; returns the code of the transfer and the
byte now held by `*data`. -/
def read_byte (i2c_dev : I2cBus) (addr : ℕ) : ℤ × ℕ × I2cBus :=
  let r := i2c_transfer i2c_dev (.read ALS_ADDR addr 1)
  (r.1.rc, r.1.data.headD 0 % 256, r.2)

/-- Source `ALS_check_for_new_valid_data` (lines 66-77); the code of the read is ignored. -/
def ALS_check_for_new_valid_data (i2c_dev : I2cBus) : Bool × I2cBus :=
  let r := read_byte i2c_dev ALS_STATUS_REG
  let status := r.2.1
  (if (status &&& 0x04 ≠ 0) ∧ (status &&& 0x80 = 0) then true else false, r.2.2)

/-- Table `integration_time_lookup` of `ALS_get_integration_time`. -/
def integration_time_lookup : List ℤ := [100, 50, 200, 400, 150, 250, 300, 350]

/-- Source `ALS_get_integration_time` (lines 84-102); a failed read is only logged. -/
def ALS_get_integration_time (i2c_dev : I2cBus) : ℤ × I2cBus :=
  let r := read_byte i2c_dev ALS_MEAS_RATE_REG
  let meas_rate_reg_data := r.2.1
  let integration_time_byte := (meas_rate_reg_data &&& 0x38) >>> 3
  (integration_time_lookup.getD integration_time_byte 0, r.2.2)

/-- Source `ALS_get_channels_data` (lines 109-127), the four iterations of the loop written
out; a failed read is only logged. The results are `uint16_t`. -/
def ALS_get_channels_data (i2c_dev : I2cBus) : (ℕ × ℕ) × I2cBus :=
  let r0 := read_byte i2c_dev (ALS_DATA_CH1_0_REG + 0)
  let r1 := read_byte r0.2.2 (ALS_DATA_CH1_0_REG + 1)
  let r2 := read_byte r1.2.2 (ALS_DATA_CH1_0_REG + 2)
  let r3 := read_byte r2.2.2 (ALS_DATA_CH1_0_REG + 3)
  ((((r1.2.1 <<< 8) ||| r0.2.1) % 65536, ((r3.2.1 <<< 8) ||| r2.2.1) % 65536), r3.2.2)

/-- Table `gain_lookup` of `ALS_get_gain`. -/
def gain_lookup : List ℤ := [1, 2, 4, 8, RESERVED, RESERVED, 48, 96]

/-- Source `ALS_get_gain` (lines 134-146); the code of the read is ignored. -/
def ALS_get_gain (i2c_dev : I2cBus) : ℤ × I2cBus :=
  let r := read_byte i2c_dev ALS_CONTR_REG
  let contr_reg_data := r.2.1
  let als_gain_byte := (contr_reg_data &&& 0x1C) >>> 2
  (gain_lookup.getD als_gain_byte 0, r.2.2)

/-- The arithmetic of `ALS_get_lux` (lines 161-185) on the two channel counts, the gain and
the integration time in ms. `ratio`, `ALS_INT` and `ALS_GAIN * ALS_INT` are `float`
expressions; the comparisons and the band formulas have `double` constants and are
evaluated in `double`; the result is assigned to the `float` `als_lux`. -/
def ALS_get_lux_arith (ch0 ch1 : ℕ) (ALS_GAIN als_integration_time_ms : ℤ) : FloatVal :=
  let c0 := int_to_float binary32 ch0
  let c1 := int_to_float binary32 ch1
  let ratio := fdiv binary32 c1 (int_to_float binary32 (ch0 + ch1))
  let ALS_INT := fdiv binary32 (int_to_float binary32 als_integration_time_ms)
    (int_to_float binary32 100)
  let denom := fmul binary32 (int_to_float binary32 ALS_GAIN) ALS_INT
  if flt ratio (lit64 (45 / 100)) then
    to_float (fdiv binary64
      (fadd binary64 (fmul binary64 (lit64 (17743 / 10000)) c0)
        (fmul binary64 (lit64 (11059 / 10000)) c1)) denom)
  else if flt ratio (lit64 (64 / 100)) && fge ratio (lit64 (45 / 100)) then
    to_float (fdiv binary64
      (fsub binary64 (fmul binary64 (lit64 (42785 / 10000)) c0)
        (fmul binary64 (lit64 (19548 / 10000)) c1)) denom)
  else if flt ratio (lit64 (85 / 100)) && fge ratio (lit64 (64 / 100)) then
    to_float (fdiv binary64
      (fadd binary64 (fmul binary64 (lit64 (5926 / 10000)) c0)
        (fmul binary64 (lit64 (1185 / 10000)) c1)) denom)
  else int_to_float binary32 0

/-- Source `ALS_get_lux` (lines 153-186): channel data, then gain, then integration time
are read from the bus, in this order. -/
def ALS_get_lux (i2c_dev : I2cBus) : FloatVal × I2cBus :=
  let c := ALS_get_channels_data i2c_dev
  let g := ALS_get_gain c.2
  let t := ALS_get_integration_time g.2
  (ALS_get_lux_arith c.1.1 c.1.2 g.1 t.1, t.2)

/-- Source `ltr329als01_sample_fetch` (lines 193-212). The assignment of the `float` lux to
the `uint16_t` field is a conversion, undefined (no result) when out of range. -/
def ltr329als01_sample_fetch (dev : ltr329als01_data) (chan : sensor_channel) :
    Option (ℤ × ltr329als01_data) :=
  if chan = .SENSOR_CHAN_ALL ∨ chan = .SENSOR_CHAN_LIGHT then
    let c := ALS_check_for_new_valid_data dev.i2c_dev
    if c.1 = true then
      let l := ALS_get_lux c.2
      match float_to_u16 l.1 with
      | some v => some (0, { i2c_dev := l.2, lux_val := v.toNat })
      | none => none
    else some (EAGAIN, { dev with i2c_dev := c.2 })
  else some (-ENOTSUP, dev)

/-- Source `ltr329als01_channel_get` (lines 219-234); `val` is the caller's object, left
as it is when the channel is not supported. -/
def ltr329als01_channel_get (dev : ltr329als01_data) (chan : sensor_channel)
    (val : sensor_value) : Option (ℤ × sensor_value) :=
  if chan = .SENSOR_CHAN_ALL ∨ chan = .SENSOR_CHAN_LIGHT then
    let als_val := int_to_float binary32 dev.lux_val
    match float_to_s32 als_val,
      float_to_s32 (fmul binary32 als_val (int_to_float binary32 1000000)) with
    | some v1, some m => some (0, ⟨v1, m.tmod 1000000⟩)
    | _, _ => none
  else some (-ENOTSUP, val)

/-- Source `ltr329als01_init` (lines 241-281); `binding` is what `device_get_binding`
returns (nothing for a null pointer, which the driver data then holds; the model leaves the
driver data as it was). The delays are not modelled. -/
def ltr329als01_init (binding : Option I2cBus) (drv_data : ltr329als01_data) :
    ℤ × ltr329als01_data :=
  match binding with
  | none => (-EINVAL, drv_data)
  | some bus =>
    let r := read_byte bus MANUFAC_ID_REG
    if r.1 = 0 then
      let w1 := write_byte r.2.2 ALS_MEAS_RATE_REG 0x1b
      let w2 := write_byte w1.2 ALS_CONTR_REG 0x01
      (0, { drv_data with i2c_dev := w2.2 })
    else (- EIO, { drv_data with i2c_dev := r.2.2 })

/-! ## si7006.h, si7006.c -/

def SI7006_ADDR : ℕ := 0x40
def Si7006_MEAS_REL_HUMIDITY_MASTER_MODE : ℕ := 0xE5
def Si7006_MEAS_TEMP_MASTER_MODE : ℕ := 0xE3

/-- Driver data `struct si7006_data`; both readings are `float`. -/
structure si7006_data where
  i2c_dev : I2cBus
  temperature : FloatVal
  humidity : FloatVal

/-- Source `read_bytes` of si7006.c: one combined transaction reading `num_bytes` bytes. -/
def read_bytes (i2c_dev : I2cBus) (addr num_bytes : ℕ) : ℤ × List ℕ × I2cBus :=
  let r := i2c_transfer i2c_dev (.read SI7006_ADDR addr num_bytes)
  (r.1.rc, (List.range num_bytes).map (fun i => r.1.data.getD i 0 % 256), r.2)

/-- Source `si7006_get_humidity` (lines 52-70): all operands are `float` or integers, so
the formula is evaluated in `float`; a failed read is only logged. -/
def si7006_get_humidity (i2c_dev : I2cBus) : FloatVal × I2cBus :=
  let r := read_bytes i2c_dev Si7006_MEAS_REL_HUMIDITY_MASTER_MODE 2
  let hum := r.2.1
  let relative_humidity_code := ((hum.getD 0 0 <<< 8) ||| hum.getD 1 0) % 65536
  (fsub binary32
    (fdiv binary32
      (fmul binary32 (int_to_float binary32 125) (int_to_float binary32 relative_humidity_code))
      (int_to_float binary32 65536))
    (int_to_float binary32 6), r.2.2)

/-- Source `si7006_get_temperature` (lines 78-95): the constants are `double`, so the
formula is evaluated in `double` and converted to `float`; a failed read is only logged. -/
def si7006_get_temperature (i2c_dev : I2cBus) : FloatVal × I2cBus :=
  let r := read_bytes i2c_dev Si7006_MEAS_TEMP_MASTER_MODE 2
  let temp := r.2.1
  let temperature_code := ((temp.getD 0 0 <<< 8) ||| temp.getD 1 0) % 65536
  (to_float (fsub binary64
    (fdiv binary64
      (fmul binary64 (lit64 (17572 / 100)) (int_to_float binary32 temperature_code))
      (int_to_float binary32 65536))
    (lit64 (4685 / 100))), r.2.2)

/-- Source `si7006_sample_fetch` (lines 102-113); the channel is not looked at. -/
def si7006_sample_fetch (dev : si7006_data) (_chan : sensor_channel) : ℤ × si7006_data :=
  let t := si7006_get_temperature dev.i2c_dev
  let h := si7006_get_humidity t.2
  (0, { i2c_dev := h.2, temperature := t.1, humidity := h.1 })

/-- The two assignments of `si7006_channel_get` for one cached `float`: `val1` receives the
value converted to `s32_t`, `val2` the C remainder by 1000000 of the product converted to
`s64_t`. -/
def si7006_decompose (v : FloatVal) : Option sensor_value :=
  match float_to_s32 v,
    float_to_s64 (fmul binary32 v (int_to_float binary32 1000000)) with
  | some v1, some m => some ⟨v1, m.tmod 1000000⟩
  | _, _ => none

/-- Source `si7006_channel_get` (lines 120-138); `val` is the caller's object, left as it
is when the channel is not supported. -/
def si7006_channel_get (dev : si7006_data) (chan : sensor_channel) (val : sensor_value) :
    Option (ℤ × sensor_value) :=
  if chan = .SENSOR_CHAN_AMBIENT_TEMP then
    (si7006_decompose dev.temperature).map (fun v => (0, v))
  else if chan = .SENSOR_CHAN_HUMIDITY then
    (si7006_decompose dev.humidity).map (fun v => (0, v))
  else some (-ENOTSUP, val)

/-- A bus whose every read of a light-sensor register succeeds with the content of that
register in `regs`, and whose writes succeed. -/
def regBus (regs : ℕ → ℕ) : I2cBus :=
  { reply := fun _ m =>
      match m with
      | .read _ reg _ => ⟨0, [regs reg]⟩
      | .write _ _ _ => ⟨0, []⟩
    trace := [] }

/-- Register file of the light sensor with the given status, channel data bytes (in the
order of the addresses 0x88 to 0x8B), control and measurement-rate bytes. -/
def alsRegs (status b0 b1 b2 b3 contr meas : ℕ) (reg : ℕ) : ℕ :=
  if reg = ALS_STATUS_REG then status
  else if reg = ALS_DATA_CH1_0_REG then b0
  else if reg = ALS_DATA_CH1_1_REG then b1
  else if reg = ALS_DATA_CH0_0_REG then b2
  else if reg = ALS_DATA_CH0_1_REG then b3
  else if reg = ALS_CONTR_REG then contr
  else if reg = ALS_MEAS_RATE_REG then meas
  else 0

/-- A bus that answers every read with the return code `rdrc` and the buffer content
`data`, and every write with the return code `wrrc`. -/
def replyBus (rdrc wrrc : ℤ) (data : List ℕ) : I2cBus :=
  { reply := fun _ m =>
      match m with
      | .read _ _ _ => ⟨rdrc, data⟩
      | .write _ _ _ => ⟨wrrc, []⟩
    trace := [] }

/-- The bus `bus` with the return code of every transfer replaced by `rc`: the buffer
contents and the trace are those of `bus`. -/
def withCodes (rc : ℕ → I2cMsg → ℤ) (bus : I2cBus) : I2cBus :=
  { reply := fun k m => ⟨rc k m, (bus.reply k m).data⟩
    trace := bus.trace }

/-! ## Bytes and bit fields -/

theorem byte_status_bits : ∀ s : Fin 256,
    ((s.val &&& 0x04 ≠ 0 ∧ s.val &&& 0x80 = 0) ↔
      (s.val.testBit 2 = true ∧ s.val.testBit 7 = false)) := by
  decide!

theorem byte_gain_field : ∀ b : Fin 256, (b.val &&& 0x1C) >>> 2 = b.val / 4 % 8 := by
  decide!

theorem byte_integration_field : ∀ b : Fin 256, (b.val &&& 0x38) >>> 3 = b.val / 8 % 8 := by
  decide!

theorem shift_or_bytes (hi lo : ℕ) (hlo : lo < 256) :
    (hi <<< 8) ||| lo = hi * 256 + lo := by
  have h : 2 ^ 8 * hi + lo = 2 ^ 8 * hi ||| lo := Nat.mul_add_lt_is_or (by omega) hi
  rw [Nat.shiftLeft_eq, Nat.mul_comm hi (2 ^ 8), ← h]

theorem read_byte_data (bus : I2cBus) (addr b : ℕ) (hb : b < 256)
    (h : (bus.reply bus.trace.length (.read ALS_ADDR addr 1)).data = [b]) :
    (read_byte bus addr).2.1 = b := by
  simp [read_byte, i2c_transfer, h, Nat.mod_eq_of_lt hb]

theorem read_byte_bus (bus : I2cBus) (addr : ℕ) :
    (read_byte bus addr).2.2 = { bus with trace := bus.trace ++ [.read ALS_ADDR addr 1] } := by
  simp [read_byte, i2c_transfer]

/-! ## Status, gain, integration time, channel data -/

/-- C1: for every status byte `s` delivered by the read of the STATUS register,
`ALS_check_for_new_valid_data` returns true exactly when bit 2 of `s` is set and bit 7 of
`s` is clear. -/
theorem C1_check_new_data_iff (bus : I2cBus) (s : ℕ) (hs : s < 256)
    (hread : (bus.reply bus.trace.length (.read ALS_ADDR ALS_STATUS_REG 1)).data = [s]) :
    (ALS_check_for_new_valid_data bus).1 = true ↔
      (s.testBit 2 = true ∧ s.testBit 7 = false) := by
  have hd := read_byte_data bus ALS_STATUS_REG s hs hread
  have hbits := byte_status_bits ⟨s, hs⟩
  simp only [ALS_check_for_new_valid_data, hd]
  constructor
  · intro h
    by_cases hc : s &&& 0x04 ≠ 0 ∧ s &&& 0x80 = 0
    · exact hbits.mp hc
    · simp [hc] at h
  · intro h
    have hc := hbits.mpr h
    simp only [if_pos hc]

/-- C1 at the status byte 0x04 on a bus whose reads succeed. -/
theorem C1_check_new_data_iff_witness :
    (4 < 256 ∧
      ((regBus (alsRegs 4 0 0 0 0 0 0)).reply (regBus (alsRegs 4 0 0 0 0 0 0)).trace.length
        (.read ALS_ADDR ALS_STATUS_REG 1)).data = [4]) ∧
    ((ALS_check_for_new_valid_data (regBus (alsRegs 4 0 0 0 0 0 0))).1 = true ↔
      (Nat.testBit 4 2 = true ∧ Nat.testBit 4 7 = false)) :=
  ⟨⟨by decide, rfl⟩, C1_check_new_data_iff (regBus (alsRegs 4 0 0 0 0 0 0)) 4 (by decide) rfl⟩

/-- C2: when `ALS_check_for_new_valid_data` reports no new data, a fetch on the light (or
all) channel returns `EAGAIN`, leaves the cached `lux_val` as it was, and performs only the
read of the STATUS register: no channel, gain or integration register is read. -/
theorem C2_fetch_not_ready (dev : ltr329als01_data) (chan : sensor_channel)
    (hchan : chan = .SENSOR_CHAN_LIGHT ∨ chan = .SENSOR_CHAN_ALL)
    (hnew : (ALS_check_for_new_valid_data dev.i2c_dev).1 = false) :
    ∃ dev1, ltr329als01_sample_fetch dev chan = some (EAGAIN, dev1) ∧
      dev1.lux_val = dev.lux_val ∧
      dev1.i2c_dev.trace = dev.i2c_dev.trace ++ [.read ALS_ADDR ALS_STATUS_REG 1] := by
  have hc : chan = .SENSOR_CHAN_ALL ∨ chan = .SENSOR_CHAN_LIGHT := hchan.symm
  refine ⟨{ dev with i2c_dev := (ALS_check_for_new_valid_data dev.i2c_dev).2 }, ?_, rfl, ?_⟩
  · simp only [ltr329als01_sample_fetch, if_pos hc, hnew]
    simp
  · simp [ALS_check_for_new_valid_data, read_byte_bus]

/-- C2 at the status byte 0x00 with cached lux 7. -/
theorem C2_fetch_not_ready_witness :
    ((sensor_channel.SENSOR_CHAN_LIGHT = .SENSOR_CHAN_LIGHT ∨
        sensor_channel.SENSOR_CHAN_LIGHT = .SENSOR_CHAN_ALL) ∧
      (ALS_check_for_new_valid_data
        (ltr329als01_data.mk (regBus (alsRegs 0 100 0 30 0 1 0)) 7).i2c_dev).1 = false) ∧
    ∃ dev1, ltr329als01_sample_fetch ⟨regBus (alsRegs 0 100 0 30 0 1 0), 7⟩
        .SENSOR_CHAN_LIGHT = some (EAGAIN, dev1) ∧
      dev1.lux_val = (ltr329als01_data.mk (regBus (alsRegs 0 100 0 30 0 1 0)) 7).lux_val ∧
      dev1.i2c_dev.trace =
        (ltr329als01_data.mk (regBus (alsRegs 0 100 0 30 0 1 0)) 7).i2c_dev.trace ++
          [.read ALS_ADDR ALS_STATUS_REG 1] :=
  ⟨⟨Or.inl rfl, by decide⟩,
    C2_fetch_not_ready ⟨regBus (alsRegs 0 100 0 30 0 1 0), 7⟩ .SENSOR_CHAN_LIGHT (Or.inl rfl)
      (by decide)⟩

/-- C8: for every control-register byte `b`, `ALS_get_gain` returns the entry of the table
1, 2, 4, 8, RESERVED, RESERVED, 48, 96 whose index is `(b & 0x1C) >> 2`; this index is the
number formed by bits 2 to 4 of `b`, so the result does not depend on the other five
bits. -/
theorem C8_get_gain_table (bus : I2cBus) (b : ℕ) (hb : b < 256)
    (hread : (bus.reply bus.trace.length (.read ALS_ADDR ALS_CONTR_REG 1)).data = [b]) :
    (ALS_get_gain bus).1 =
        ([1, 2, 4, 8, RESERVED, RESERVED, 48, 96] : List ℤ).getD ((b &&& 0x1C) >>> 2) 0 ∧
      (b &&& 0x1C) >>> 2 = b / 4 % 8 ∧
      (ALS_get_gain bus).1 = (match b / 4 % 8 with
        | 0 => 1 | 1 => 2 | 2 => 4 | 3 => 8 | 4 => RESERVED | 5 => RESERVED
        | 6 => 48 | _ => 96) := by
  have hd := read_byte_data bus ALS_CONTR_REG b hb hread
  have hf := byte_gain_field ⟨b, hb⟩
  simp only at hf
  have hlt : b / 4 % 8 < 8 := Nat.mod_lt _ (by decide)
  refine ⟨by simp [ALS_get_gain, hd, gain_lookup], hf, ?_⟩
  simp only [ALS_get_gain, hd, hf, gain_lookup]
  generalize b / 4 % 8 = k at hlt
  interval_cases k <;> rfl

/-- C8 at the control byte 0xFB (gain code 6, all other bits set). -/
theorem C8_get_gain_table_witness :
    (0xFB < 256 ∧
      ((regBus (alsRegs 0 0 0 0 0 0xFB 0)).reply (regBus (alsRegs 0 0 0 0 0 0xFB 0)).trace.length
        (.read ALS_ADDR ALS_CONTR_REG 1)).data = [0xFB]) ∧
    ((ALS_get_gain (regBus (alsRegs 0 0 0 0 0 0xFB 0))).1 =
        ([1, 2, 4, 8, RESERVED, RESERVED, 48, 96] : List ℤ).getD ((0xFB &&& 0x1C) >>> 2) 0 ∧
      (0xFB &&& 0x1C) >>> 2 = 0xFB / 4 % 8 ∧
      (ALS_get_gain (regBus (alsRegs 0 0 0 0 0 0xFB 0))).1 = (match 0xFB / 4 % 8 with
        | 0 => 1 | 1 => 2 | 2 => 4 | 3 => 8 | 4 => RESERVED | 5 => RESERVED
        | 6 => 48 | _ => 96)) :=
  ⟨⟨by decide, rfl⟩, C8_get_gain_table (regBus (alsRegs 0 0 0 0 0 0xFB 0)) 0xFB (by decide) rfl⟩

/-- C9: for every measurement-rate byte `b`, `ALS_get_integration_time` returns the entry
of the table 100, 50, 200, 400, 150, 250, 300, 350 whose index is `(b & 0x38) >> 3`; this
index is the number formed by bits 3 to 5 of `b`, so the result does not depend on the
other five bits. -/
theorem C9_get_integration_time_table (bus : I2cBus) (b : ℕ) (hb : b < 256)
    (hread : (bus.reply bus.trace.length (.read ALS_ADDR ALS_MEAS_RATE_REG 1)).data = [b]) :
    (ALS_get_integration_time bus).1 =
        ([100, 50, 200, 400, 150, 250, 300, 350] : List ℤ).getD ((b &&& 0x38) >>> 3) 0 ∧
      (b &&& 0x38) >>> 3 = b / 8 % 8 ∧
      (ALS_get_integration_time bus).1 = (match b / 8 % 8 with
        | 0 => 100 | 1 => 50 | 2 => 200 | 3 => 400 | 4 => 150 | 5 => 250
        | 6 => 300 | _ => 350) := by
  have hd := read_byte_data bus ALS_MEAS_RATE_REG b hb hread
  have hf := byte_integration_field ⟨b, hb⟩
  simp only at hf
  have hlt : b / 8 % 8 < 8 := Nat.mod_lt _ (by decide)
  refine ⟨by simp [ALS_get_integration_time, hd, integration_time_lookup], hf, ?_⟩
  simp only [ALS_get_integration_time, hd, hf, integration_time_lookup]
  generalize b / 8 % 8 = k at hlt
  interval_cases k <;> rfl

/-- C9 at the measurement-rate byte 0x1B written by the start-up sequence. -/
theorem C9_get_integration_time_table_witness :
    (0x1B < 256 ∧
      ((regBus (alsRegs 0 0 0 0 0 0 0x1B)).reply (regBus (alsRegs 0 0 0 0 0 0 0x1B)).trace.length
        (.read ALS_ADDR ALS_MEAS_RATE_REG 1)).data = [0x1B]) ∧
    ((ALS_get_integration_time (regBus (alsRegs 0 0 0 0 0 0 0x1B))).1 =
        ([100, 50, 200, 400, 150, 250, 300, 350] : List ℤ).getD ((0x1B &&& 0x38) >>> 3) 0 ∧
      (0x1B &&& 0x38) >>> 3 = 0x1B / 8 % 8 ∧
      (ALS_get_integration_time (regBus (alsRegs 0 0 0 0 0 0 0x1B))).1 =
        (match 0x1B / 8 % 8 with
        | 0 => 100 | 1 => 50 | 2 => 200 | 3 => 400 | 4 => 150 | 5 => 250
        | 6 => 300 | _ => 350)) :=
  ⟨⟨by decide, rfl⟩,
    C9_get_integration_time_table (regBus (alsRegs 0 0 0 0 0 0 0x1B)) 0x1B (by decide) rfl⟩

/-- C10: for every four bytes `b0, b1, b2, b3` delivered, in this order, by the reads of
the registers 0x88, 0x89, 0x8A, 0x8B, `ALS_get_channels_data` returns the pair
`(b1 * 256 + b0, b3 * 256 + b2)`: each value is `(high << 8) | low` with the byte read
second as the high byte, and lies in 0..65535; exactly these four reads are performed. -/
theorem C10_get_channels_data (bus : I2cBus) (b0 b1 b2 b3 : ℕ)
    (hb0 : b0 < 256) (hb1 : b1 < 256) (hb2 : b2 < 256) (hb3 : b3 < 256)
    (h0 : (bus.reply bus.trace.length (.read ALS_ADDR 0x88 1)).data = [b0])
    (h1 : (bus.reply (bus.trace.length + 1) (.read ALS_ADDR 0x89 1)).data = [b1])
    (h2 : (bus.reply (bus.trace.length + 2) (.read ALS_ADDR 0x8A 1)).data = [b2])
    (h3 : (bus.reply (bus.trace.length + 3) (.read ALS_ADDR 0x8B 1)).data = [b3]) :
    (ALS_get_channels_data bus).1 = (b1 * 256 + b0, b3 * 256 + b2) ∧
      b1 * 256 + b0 = ((b1 <<< 8) ||| b0) ∧ b3 * 256 + b2 = ((b3 <<< 8) ||| b2) ∧
      b1 * 256 + b0 ≤ 65535 ∧ b3 * 256 + b2 ≤ 65535 ∧
      (ALS_get_channels_data bus).2.trace = bus.trace ++
        [.read ALS_ADDR 0x88 1, .read ALS_ADDR 0x89 1, .read ALS_ADDR 0x8A 1,
          .read ALS_ADDR 0x8B 1] := by
  have e1 := shift_or_bytes b1 b0 hb0
  have e2 := shift_or_bytes b3 b2 hb2
  have m0 := Nat.mod_eq_of_lt hb0
  have m1 := Nat.mod_eq_of_lt hb1
  have m2 := Nat.mod_eq_of_lt hb2
  have m3 := Nat.mod_eq_of_lt hb3
  have l1 : b1 * 256 + b0 < 65536 := by omega
  have l2 : b3 * 256 + b2 < 65536 := by omega
  refine ⟨?_, e1.symm, e2.symm, by omega, by omega, ?_⟩
  · simp [ALS_get_channels_data, read_byte, i2c_transfer, ALS_DATA_CH1_0_REG, h0, h1, h2, h3,
      m0, m1, m2, m3, e1, e2, Nat.mod_eq_of_lt l1, Nat.mod_eq_of_lt l2]
  · simp [ALS_get_channels_data, read_byte, i2c_transfer, ALS_DATA_CH1_0_REG]

/-- C10 at the bytes 0x34, 0x12, 0xCD, 0xAB. -/
theorem C10_get_channels_data_witness :
    (ALS_get_channels_data (regBus (alsRegs 0 0x34 0x12 0xCD 0xAB 0 0))).1 =
        (0x12 * 256 + 0x34, 0xAB * 256 + 0xCD) ∧
      0x12 * 256 + 0x34 = ((0x12 <<< 8) ||| 0x34) ∧ 0xAB * 256 + 0xCD = ((0xAB <<< 8) ||| 0xCD) ∧
      0x12 * 256 + 0x34 ≤ 65535 ∧ 0xAB * 256 + 0xCD ≤ 65535 ∧
      (ALS_get_channels_data (regBus (alsRegs 0 0x34 0x12 0xCD 0xAB 0 0))).2.trace =
        (regBus (alsRegs 0 0x34 0x12 0xCD 0xAB 0 0)).trace ++
        [.read ALS_ADDR 0x88 1, .read ALS_ADDR 0x89 1, .read ALS_ADDR 0x8A 1,
          .read ALS_ADDR 0x8B 1] :=
  C10_get_channels_data (regBus (alsRegs 0 0x34 0x12 0xCD 0xAB 0 0)) 0x34 0x12 0xCD 0xAB
    (by decide) (by decide) (by decide) (by decide) rfl rfl rfl rfl

/-! ## Rounding -/

theorem pow2_eq (k : ℤ) : pow2 k = (2 : ℚ) ^ k := by
  unfold pow2
  split_ifs with h
  · obtain ⟨n, rfl⟩ := Int.eq_ofNat_of_zero_le h
    simp
  · obtain ⟨n, hn⟩ : ∃ n : ℕ, k = -(n : ℤ) := ⟨(-k).toNat, by omega⟩
    subst hn
    simp

theorem log2Aux_spec : ∀ (fuel n : ℕ), n ≤ fuel → 1 ≤ n →
    2 ^ log2Aux fuel n ≤ n ∧ n < 2 ^ (log2Aux fuel n + 1) := by
  intro fuel
  induction fuel with
  | zero => intro n h1 h2; omega
  | succ f ih =>
    intro n h1 h2
    unfold log2Aux
    split_ifs with h
    · have := ih (n / 2) (by omega) (by omega)
      rw [pow_succ, pow_succ]
      constructor <;> omega
    · simp; omega

theorem natLog2_spec (n : ℕ) (h : 1 ≤ n) :
    2 ^ natLog2 n ≤ n ∧ n < 2 ^ (natLog2 n + 1) :=
  log2Aux_spec n n le_rfl h

theorem ilog2_spec (x : ℚ) (hx : 0 < x) :
    (2 : ℚ) ^ ilog2 x ≤ x ∧ x < (2 : ℚ) ^ (ilog2 x + 1) := by
  have hnum : 0 < x.num := Rat.num_pos.mpr hx
  have hn1 : 1 ≤ x.num.natAbs := by omega
  have hd1 : 1 ≤ x.den := x.den_pos
  obtain ⟨a1, a2⟩ := natLog2_spec x.num.natAbs hn1
  obtain ⟨b1, b2⟩ := natLog2_spec x.den hd1
  have hxe : x = (x.num.natAbs : ℚ) / (x.den : ℚ) := by
    have h3 : ((x.num.natAbs : ℕ) : ℤ) = x.num := Int.natAbs_of_nonneg hnum.le
    have h4 : ((x.num.natAbs : ℕ) : ℚ) = (x.num : ℚ) :=
      calc ((x.num.natAbs : ℕ) : ℚ) = (((x.num.natAbs : ℕ) : ℤ) : ℚ) := (Int.cast_natCast _).symm
        _ = (x.num : ℚ) := by rw [h3]
    rw [h4]
    exact (Rat.num_div_den x).symm
  have hdpos : (0 : ℚ) < x.den := by exact_mod_cast hd1
  have A1 : (2 : ℚ) ^ natLog2 x.num.natAbs ≤ (x.num.natAbs : ℚ) := by exact_mod_cast a1
  have A2 : (x.num.natAbs : ℚ) < (2 : ℚ) ^ (natLog2 x.num.natAbs + 1) := by exact_mod_cast a2
  have B1 : (2 : ℚ) ^ natLog2 x.den ≤ (x.den : ℚ) := by exact_mod_cast b1
  have B2 : (x.den : ℚ) < (2 : ℚ) ^ (natLog2 x.den + 1) := by exact_mod_cast b2
  set a := natLog2 x.num.natAbs
  set b := natLog2 x.den
  have hk1 : (2 : ℚ) ^ ((a : ℤ) - (b : ℤ) - 1) ≤ x := by
    rw [hxe, zpow_sub₀ (by norm_num), zpow_sub₀ (by norm_num), zpow_natCast, zpow_natCast,
      zpow_one]
    rw [div_div, div_le_div_iff₀ (by positivity) hdpos]
    have : (2 : ℚ) ^ b * 2 = (2 : ℚ) ^ (b + 1) := by rw [pow_succ]
    rw [this]
    have h2b : (0 : ℚ) < (2 : ℚ) ^ (b + 1) := by positivity
    have h2a : (0 : ℚ) < (2 : ℚ) ^ a := by positivity
    nlinarith
  have hk2 : x < (2 : ℚ) ^ ((a : ℤ) - (b : ℤ) + 1) := by
    rw [hxe, zpow_add₀ (by norm_num), zpow_sub₀ (by norm_num), zpow_natCast, zpow_natCast,
      zpow_one]
    rw [div_mul_eq_mul_div, div_lt_div_iff₀ hdpos (by positivity)]
    have : (2 : ℚ) ^ a * 2 = (2 : ℚ) ^ (a + 1) := by rw [pow_succ]
    rw [this]
    have h2b : (0 : ℚ) < (2 : ℚ) ^ b := by positivity
    have h2a : (0 : ℚ) < (2 : ℚ) ^ (a + 1) := by positivity
    nlinarith
  unfold ilog2
  simp only [pow2_eq]
  split_ifs with h
  · exact ⟨h, hk2⟩
  · refine ⟨hk1, ?_⟩
    have : (a : ℤ) - (b : ℤ) - 1 + 1 = (a : ℤ) - (b : ℤ) := by ring
    rw [this]
    exact not_le.mp h


theorem roundHalfEven_err (y : ℚ) : |(roundHalfEven y : ℚ) - y| ≤ 1 / 2 := by
  unfold roundHalfEven
  have h1 := Int.floor_le y
  have h2 := Int.lt_floor_add_one y
  simp only
  split_ifs with a b c
  · rw [abs_le]; constructor <;> linarith
  · push_cast; rw [abs_le]; constructor <;> linarith
  · rw [abs_le]; constructor <;> linarith
  · push_cast; rw [abs_le]; constructor <;> linarith

theorem roundHalfEven_intCast (n : ℤ) : roundHalfEven (n : ℚ) = n := by
  unfold roundHalfEven
  simp

theorem roundTo_zero (p : ℕ) (emin : ℤ) : roundTo p emin 0 = 0 := by
  simp [roundTo]

theorem roundTo_abs_err (p : ℕ) (emin : ℤ) (x : ℚ) (hx : x ≠ 0) :
    |roundTo p emin x - x| ≤ (2 : ℚ) ^ (max (ilog2 |x|) emin - (p - 1)) / 2 := by
  simp only [roundTo, if_neg hx, pow2_eq]
  set ulp : ℚ := (2 : ℚ) ^ (max (ilog2 |x|) emin - (p - 1)) with hulp
  have hpos : 0 < ulp := zpow_pos (by norm_num) _
  have h := roundHalfEven_err (x / ulp)
  have e : (roundHalfEven (x / ulp) : ℚ) * ulp - x = ((roundHalfEven (x / ulp) : ℚ) - x / ulp) * ulp := by
    field_simp
  rw [e, abs_mul, abs_of_pos hpos]
  calc |(roundHalfEven (x / ulp) : ℚ) - x / ulp| * ulp ≤ 1 / 2 * ulp :=
        mul_le_mul_of_nonneg_right h hpos.le
    _ = ulp / 2 := by ring

theorem roundTo_rel_err (p : ℕ) (emin : ℤ) (x : ℚ) (hx : (2 : ℚ) ^ emin ≤ |x|) :
    |roundTo p emin x - x| ≤ |x| / 2 ^ p := by
  have hpos : 0 < |x| := lt_of_lt_of_le (zpow_pos (by norm_num) _) hx
  have hx0 : x ≠ 0 := abs_pos.mp hpos
  have hlog : emin ≤ ilog2 |x| := by
    have h3 := (ilog2_spec |x| hpos).2
    have h4 : (2 : ℚ) ^ emin < (2 : ℚ) ^ (ilog2 |x| + 1) := lt_of_le_of_lt hx h3
    have := (zpow_lt_zpow_iff_right₀ (by norm_num : (1 : ℚ) < 2)).mp h4
    omega
  have h := roundTo_abs_err p emin x hx0
  rw [max_eq_left hlog] at h
  have h2 : (2 : ℚ) ^ ilog2 |x| ≤ |x| := (ilog2_spec |x| hpos).1
  have e : (2 : ℚ) ^ (ilog2 |x| - ((p : ℤ) - 1)) / 2 = (2 : ℚ) ^ ilog2 |x| / 2 ^ p := by
    rw [zpow_sub₀ (by norm_num), zpow_sub₀ (by norm_num), zpow_natCast, zpow_one]
    field_simp
    ring
  rw [e] at h
  exact h.trans (div_le_div_of_nonneg_right h2 (by positivity))

theorem log_abs_le_of_le (x : ℚ) (hx : x ≠ 0) (e : ℤ) (h : |x| ≤ (2 : ℚ) ^ e) :
    ilog2 |x| ≤ e := by
  have hpos : 0 < |x| := abs_pos.mpr hx
  have h1 : (2 : ℚ) ^ ilog2 |x| ≤ (2 : ℚ) ^ e := (ilog2_spec |x| hpos).1.trans h
  exact (zpow_le_zpow_iff_right₀ (by norm_num : (1 : ℚ) < 2)).mp h1

theorem round_fin (f : FloatFormat) (x : ℚ) (hp : 1 ≤ f.prec) (hemin : f.emin ≤ f.emax)
    (hx : |x| ≤ (2 : ℚ) ^ f.emax) : f.round x = .fin (roundTo f.prec f.emin x) := by
  have key : |roundTo f.prec f.emin x| < (2 : ℚ) ^ (f.emax + 1) := by
    have hE : (2 : ℚ) ^ (f.emax + 1) = 2 * (2 : ℚ) ^ f.emax := by
      rw [zpow_add₀ (by norm_num), zpow_one]; ring
    have hEpos : 0 < (2 : ℚ) ^ f.emax := zpow_pos (by norm_num) _
    by_cases h0 : x = 0
    · rw [h0, roundTo_zero, abs_zero]; positivity
    · have h := roundTo_abs_err f.prec f.emin x h0
      have hlog := log_abs_le_of_le x h0 f.emax hx
      have hexp : max (ilog2 |x|) f.emin - ((f.prec : ℤ) - 1) ≤ f.emax := by
        have : max (ilog2 |x|) f.emin ≤ f.emax := max_le hlog hemin
        have hp1 : (1 : ℤ) ≤ (f.prec : ℤ) := by exact_mod_cast hp
        omega
      have hu : (2 : ℚ) ^ (max (ilog2 |x|) f.emin - ((f.prec : ℤ) - 1)) ≤ (2 : ℚ) ^ f.emax :=
        zpow_le_zpow_right₀ (by norm_num) hexp
      have : |roundTo f.prec f.emin x| ≤ |roundTo f.prec f.emin x - x| + |x| := by
        have := abs_add (roundTo f.prec f.emin x - x) x
        simpa using this
      rw [hE]
      linarith
  simp only [FloatFormat.round, pow2_eq, if_neg (not_le.mpr key)]

theorem roundTo_exact (p : ℕ) (emin : ℤ) (x : ℚ) (hx : x ≠ 0) (m : ℤ)
    (h : x / (2 : ℚ) ^ (max (ilog2 |x|) emin - (p - 1)) = m) : roundTo p emin x = x := by
  simp only [roundTo, if_neg hx, pow2_eq, h, roundHalfEven_intCast]
  rw [← h]
  have hpos : (0 : ℚ) < (2 : ℚ) ^ (max (ilog2 |x|) emin - ((p : ℤ) - 1)) :=
    zpow_pos (by norm_num) _
  field_simp

theorem roundTo_intCast (p : ℕ) (emin : ℤ) (n : ℤ) (hemin : emin ≤ (p : ℤ) - 1)
    (hn : |(n : ℚ)| < (2 : ℚ) ^ p) : roundTo p emin (n : ℚ) = n := by
  by_cases h0 : (n : ℚ) = 0
  · rw [h0, roundTo_zero]
  · have hpos : 0 < |(n : ℚ)| := abs_pos.mpr h0
    have hlog : ilog2 |(n : ℚ)| < (p : ℤ) := by
      have h1 : (2 : ℚ) ^ ilog2 |(n : ℚ)| < (2 : ℚ) ^ (p : ℤ) := by
        rw [zpow_natCast]
        exact lt_of_le_of_lt (ilog2_spec |(n : ℚ)| hpos).1 hn
      exact (zpow_lt_zpow_iff_right₀ (by norm_num : (1 : ℚ) < 2)).mp h1
    have hk : max (ilog2 |(n : ℚ)|) emin - ((p : ℤ) - 1) ≤ 0 := by
      have : max (ilog2 |(n : ℚ)|) emin ≤ (p : ℤ) - 1 := max_le (by omega) hemin
      omega
    obtain ⟨k, hk'⟩ : ∃ k : ℕ, max (ilog2 |(n : ℚ)|) emin - ((p : ℤ) - 1) = -(k : ℤ) :=
      ⟨(-(max (ilog2 |(n : ℚ)|) emin - ((p : ℤ) - 1))).toNat, by omega⟩
    apply roundTo_exact p emin (n : ℚ) h0 (n * 2 ^ k)
    rw [hk', zpow_neg, zpow_natCast]
    push_cast
    field_simp

theorem int_to_float32_exact (n : ℤ) (hn : |(n : ℚ)| < 16777216) :
    int_to_float binary32 n = .fin n := by
  have h1 : roundTo 24 (-126) (n : ℚ) = n :=
    roundTo_intCast 24 (-126) n (by norm_num) (by norm_num; exact hn)
  have h2 : |(n : ℚ)| ≤ (2 : ℚ) ^ (binary32.emax) := by
    have : (16777216 : ℚ) ≤ (2 : ℚ) ^ (binary32.emax) := by
      simp only [binary32]; norm_num
    linarith
  rw [int_to_float, round_fin binary32 _ (by decide) (by decide) h2]
  simp only [binary32, h1]

/-- One rounding step of an error analysis: if `Y` approximates `X ≥ 0` with relative
error `a ≤ 1/2` and `X` is zero or well inside the normal range of the format, then `Y`
rounds to a finite `r` that approximates `X` with relative error `a + 2^-p + a * 2^-p`. -/
theorem round_near (f : FloatFormat) (hp : 1 ≤ f.prec) (hemin : f.emin ≤ f.emax)
    (X Y a : ℚ) (ha2 : a ≤ 1 / 2) (h : |Y - X| ≤ a * X)
    (hlo : X = 0 ∨ 2 * (2 : ℚ) ^ f.emin ≤ X) (hhi : 2 * X ≤ (2 : ℚ) ^ f.emax) :
    ∃ r : ℚ, f.round Y = .fin r ∧ |r - X| ≤ (a + 1 / 2 ^ f.prec + a * (1 / 2 ^ f.prec)) * X := by
  have hX : 0 ≤ X := by
    rcases hlo with h0 | h1
    · rw [h0]
    · have : (0 : ℚ) < (2 : ℚ) ^ f.emin := zpow_pos (by norm_num) _
      linarith
  have hY := abs_le.mp h
  have hYabs : |Y| ≤ (1 + a) * X := by
    rw [abs_le]; constructor <;> nlinarith
  have hfin : f.round Y = .fin (roundTo f.prec f.emin Y) := by
    apply round_fin f Y hp hemin
    nlinarith
  refine ⟨roundTo f.prec f.emin Y, hfin, ?_⟩
  have hu : (0 : ℚ) < 1 / 2 ^ f.prec := by positivity
  rcases hlo with h0 | h1
  · have hY0 : Y = 0 := by
      rw [h0] at hY
      linarith [hY.1, hY.2]
    rw [hY0, h0, roundTo_zero]; simp
  · have hYlo : (2 : ℚ) ^ f.emin ≤ |Y| := by
      have : X / 2 ≤ Y := by nlinarith
      have h3 : (2 : ℚ) ^ f.emin ≤ Y := by linarith
      exact h3.trans (le_abs_self Y)
    have hr := roundTo_rel_err f.prec f.emin Y hYlo
    have e : |Y| / 2 ^ f.prec = |Y| * (1 / 2 ^ f.prec) := by ring
    rw [e] at hr
    have h4 : |Y| * (1 / 2 ^ f.prec) ≤ (1 + a) * X * (1 / 2 ^ f.prec) :=
      mul_le_mul_of_nonneg_right hYabs hu.le
    have h5 : |roundTo f.prec f.emin Y - X| ≤ |roundTo f.prec f.emin Y - Y| + |Y - X| := by
      have := abs_add (roundTo f.prec f.emin Y - Y) (Y - X)
      simpa using this
    calc |roundTo f.prec f.emin Y - X| ≤ |roundTo f.prec f.emin Y - Y| + |Y - X| := h5
      _ ≤ (1 + a) * X * (1 / 2 ^ f.prec) + a * X := by linarith
      _ = (a + 1 / 2 ^ f.prec + a * (1 / 2 ^ f.prec)) * X := by ring

theorem binary64_emin_small : 2 * (2 : ℚ) ^ binary64.emin ≤ 1 / 10000000 := by
  simp only [binary64]
  rw [zpow_neg]
  have : (10000000 : ℚ) * 2 ≤ (2 : ℚ) ^ (1022 : ℤ) := by norm_num
  rw [show (2 : ℚ) * ((2 : ℚ) ^ (1022 : ℤ))⁻¹ = 2 / (2 : ℚ) ^ (1022 : ℤ) by ring]
  rw [div_le_div_iff₀ (by positivity) (by norm_num)]
  linarith

theorem binary32_emin_small : 2 * (2 : ℚ) ^ binary32.emin ≤ 1 / 10000000 := by
  simp only [binary32]
  rw [zpow_neg]
  have : (10000000 : ℚ) * 2 ≤ (2 : ℚ) ^ (126 : ℤ) := by norm_num
  rw [show (2 : ℚ) * ((2 : ℚ) ^ (126 : ℤ))⁻¹ = 2 / (2 : ℚ) ^ (126 : ℤ) by ring]
  rw [div_le_div_iff₀ (by positivity) (by norm_num)]
  linarith

theorem binary64_emax_large : (100000000 : ℚ) ≤ (2 : ℚ) ^ binary64.emax := by
  simp only [binary64]; norm_num

theorem binary32_emax_large : (100000000 : ℚ) ≤ (2 : ℚ) ^ binary32.emax := by
  simp only [binary32]; norm_num

/-- A `double` product of a decimal constant `a` and a converted count `x`. -/
theorem const_mul_near (a : ℚ) (ha : 1 / 10 ≤ a) (ha5 : a ≤ 5) (x : ℕ) (hx : x ≤ 65535) :
    ∃ P : ℚ, fmul binary64 (lit64 a) (.fin x) = .fin P ∧
      |P - a * x| ≤ 3 / 2 ^ 53 * (a * x) := by
  have hx' : (x : ℚ) ≤ 65535 := by exact_mod_cast hx
  have hx0 : (0 : ℚ) ≤ x := Nat.cast_nonneg x
  obtain ⟨a', ha', hea⟩ := round_near binary64 (by decide) (by decide) a a 0 (by norm_num)
    (by simp) (Or.inr (by linarith [binary64_emin_small]))
    (by linarith [binary64_emax_large])
  have hea' : |a' - a| ≤ 1 / 2 ^ 53 * a := by
    simpa [binary64] using hea
  have h1 : |a' * x - a * x| ≤ 1 / 2 ^ 53 * (a * x) := by
    have : a' * x - a * x = (a' - a) * x := by ring
    rw [this, abs_mul, abs_of_nonneg hx0]
    calc |a' - a| * x ≤ 1 / 2 ^ 53 * a * x := mul_le_mul_of_nonneg_right hea' hx0
      _ = 1 / 2 ^ 53 * (a * x) := by ring
  have hlo : a * x = 0 ∨ 2 * (2 : ℚ) ^ binary64.emin ≤ a * x := by
    rcases Nat.eq_zero_or_pos x with h0 | h0
    · left; simp [h0]
    · right
      have : (1 : ℚ) ≤ x := by exact_mod_cast h0
      have := binary64_emin_small
      nlinarith
  obtain ⟨P, hP, heP⟩ := round_near binary64 (by decide) (by decide) (a * x) (a' * x)
    (1 / 2 ^ 53) (by norm_num) h1 hlo (by nlinarith [binary64_emax_large])
  refine ⟨P, ?_, ?_⟩
  · rw [lit64, ha']; exact hP
  · refine heP.trans (mul_le_mul_of_nonneg_right ?_ (by positivity))
    simp only [binary64]; norm_num

/-- The common tail of the three band formulas: the `double` sum or difference `N` is
rounded, divided by the denominator in `double`, and the quotient is converted to
`float`. -/
theorem band_tail (X N D e : ℚ) (hN : |N - X| ≤ e * X) (he : e ≤ 30 / 2 ^ 53)
    (hXlo : 1 / 10 ≤ X) (hXhi : X ≤ 1000000) (hD : 1 / 2 ≤ D) (hD' : D ≤ 384) :
    ∃ L : ℚ, to_float (fdiv binary64 (binary64.round N) (.fin D)) = .fin L ∧
      |L - X / D| ≤ X / D / 2 ^ 23 := by
  have hDpos : 0 < D := by linarith
  have hX0 : 0 ≤ X := by linarith
  obtain ⟨S, hS, heS⟩ := round_near binary64 (by decide) (by decide) X N e
    (he.trans (by norm_num)) hN (Or.inr (by linarith [binary64_emin_small]))
    (by linarith [binary64_emax_large])
  have heS' : |S - X| ≤ 32 / 2 ^ 53 * X := by
    refine heS.trans (mul_le_mul_of_nonneg_right ?_ hX0)
    simp only [binary64]
    have : e * (1 / 2 ^ 53) ≤ 30 / 2 ^ 53 * (1 / 2 ^ 53) :=
      mul_le_mul_of_nonneg_right he (by positivity)
    have h2 : (30 : ℚ) / 2 ^ 53 * (1 / 2 ^ 53) ≤ 1 / 2 ^ 53 := by norm_num
    linarith
  have hXD0 : 0 ≤ X / D := div_nonneg hX0 hDpos.le
  have hXDlo : 1 / 100000 ≤ X / D := by
    rw [le_div_iff₀ hDpos]; linarith
  have hXDhi : X / D ≤ 2000000 := by
    rw [div_le_iff₀ hDpos]; linarith
  have hq : |S / D - X / D| ≤ 32 / 2 ^ 53 * (X / D) := by
    have : S / D - X / D = (S - X) / D := by ring
    rw [this, abs_div, abs_of_pos hDpos]
    calc |S - X| / D ≤ 32 / 2 ^ 53 * X / D := div_le_div_of_nonneg_right heS' hDpos.le
      _ = 32 / 2 ^ 53 * (X / D) := by ring
  obtain ⟨Q, hQ, heQ⟩ := round_near binary64 (by decide) (by decide) (X / D) (S / D)
    (32 / 2 ^ 53) (by norm_num) hq (Or.inr (by linarith [binary64_emin_small]))
    (by linarith [binary64_emax_large])
  have heQ' : |Q - X / D| ≤ 34 / 2 ^ 53 * (X / D) := by
    refine heQ.trans (mul_le_mul_of_nonneg_right ?_ hXD0)
    simp only [binary64]; norm_num
  obtain ⟨L, hL, heL⟩ := round_near binary32 (by decide) (by decide) (X / D) Q
    (34 / 2 ^ 53) (by norm_num) heQ' (Or.inr (by linarith [binary32_emin_small]))
    (by linarith [binary32_emax_large])
  refine ⟨L, ?_, ?_⟩
  · rw [hS]
    simp only [fdiv, if_neg hDpos.ne', hQ, to_float, hL]
  · have : (34 / 2 ^ 53 + 1 / 2 ^ binary32.prec + 34 / 2 ^ 53 * (1 / 2 ^ binary32.prec)) * (X / D)
        ≤ 1 / 2 ^ 23 * (X / D) := by
      refine mul_le_mul_of_nonneg_right ?_ hXD0
      simp only [binary32]; norm_num
    calc |L - X / D| ≤ _ := heL
      _ ≤ 1 / 2 ^ 23 * (X / D) := this
      _ = X / D / 2 ^ 23 := by ring

/-- Error bound of a band whose two terms are added (first and third band). -/
theorem band_add_near (a b : ℚ) (ha : 1 / 10 ≤ a) (ha5 : a ≤ 5) (hb : 1 / 10 ≤ b) (hb5 : b ≤ 5)
    (x y : ℕ) (hx : x ≤ 65535) (hy : y ≤ 65535) (hs : 0 < x + y)
    (D : ℚ) (hD : 1 / 2 ≤ D) (hD' : D ≤ 384) :
    ∃ L : ℚ, to_float (fdiv binary64
        (fadd binary64 (fmul binary64 (lit64 a) (.fin x)) (fmul binary64 (lit64 b) (.fin y)))
        (.fin D)) = .fin L ∧
      |L - (a * x + b * y) / D| ≤ (a * x + b * y) / D / 2 ^ 23 := by
  obtain ⟨P1, hP1, he1⟩ := const_mul_near a ha ha5 x hx
  obtain ⟨P2, hP2, he2⟩ := const_mul_near b hb hb5 y hy
  have hx' : (x : ℚ) ≤ 65535 := by exact_mod_cast hx
  have hy' : (y : ℚ) ≤ 65535 := by exact_mod_cast hy
  have hx0 : (0 : ℚ) ≤ x := Nat.cast_nonneg x
  have hy0 : (0 : ℚ) ≤ y := Nat.cast_nonneg y
  have hs' : (1 : ℚ) ≤ x + y := by exact_mod_cast hs
  have hN : |(P1 + P2) - (a * x + b * y)| ≤ 3 / 2 ^ 53 * (a * x + b * y) := by
    have := abs_add (P1 - a * x) (P2 - b * y)
    have e : P1 - a * x + (P2 - b * y) = (P1 + P2) - (a * x + b * y) := by ring
    rw [e] at this
    linarith
  obtain ⟨L, hL, heL⟩ := band_tail (a * x + b * y) (P1 + P2) D (3 / 2 ^ 53) hN (by norm_num)
    (by nlinarith) (by nlinarith) hD hD'
  exact ⟨L, by rw [hP1, hP2]; exact hL, heL⟩

/-- Error bound of the band whose terms are subtracted (second band), for counts with
`9 * y ≤ 16 * x`, that is `y / (x + y) ≤ 0.64`. -/
theorem band_sub_near (x y : ℕ) (hx : x ≤ 65535) (hy : y ≤ 65535) (hs : 0 < x + y)
    (hr : 9 * y ≤ 16 * x) (D : ℚ) (hD : 1 / 2 ≤ D) (hD' : D ≤ 384) :
    ∃ L : ℚ, to_float (fdiv binary64
        (fsub binary64 (fmul binary64 (lit64 (42785 / 10000)) (.fin x))
          (fmul binary64 (lit64 (19548 / 10000)) (.fin y)))
        (.fin D)) = .fin L ∧
      |L - (42785 / 10000 * x - 19548 / 10000 * y) / D| ≤
        (42785 / 10000 * x - 19548 / 10000 * y) / D / 2 ^ 23 := by
  obtain ⟨P1, hP1, he1⟩ := const_mul_near (42785 / 10000) (by norm_num) (by norm_num) x hx
  obtain ⟨P2, hP2, he2⟩ := const_mul_near (19548 / 10000) (by norm_num) (by norm_num) y hy
  have hx' : (x : ℚ) ≤ 65535 := by exact_mod_cast hx
  have hy' : (y : ℚ) ≤ 65535 := by exact_mod_cast hy
  have hx0 : (0 : ℚ) ≤ x := Nat.cast_nonneg x
  have hy0 : (0 : ℚ) ≤ y := Nat.cast_nonneg y
  have hr' : 9 * (y : ℚ) ≤ 16 * x := by exact_mod_cast hr
  have hx1 : (1 : ℚ) ≤ x := by
    have : 1 ≤ x := by omega
    exact_mod_cast this
  have hN : |(P1 - P2) - (42785 / 10000 * x - 19548 / 10000 * y)| ≤
      30 / 2 ^ 53 * (42785 / 10000 * x - 19548 / 10000 * y) := by
    have := abs_sub (P1 - 42785 / 10000 * x) (P2 - 19548 / 10000 * y)
    have e : P1 - 42785 / 10000 * x - (P2 - 19548 / 10000 * y) =
        (P1 - P2) - (42785 / 10000 * x - 19548 / 10000 * y) := by ring
    rw [e] at this
    have hK : (42785 / 10000 * (x : ℚ) + 19548 / 10000 * y) ≤
        10 * (42785 / 10000 * x - 19548 / 10000 * y) := by linarith
    calc _ ≤ |P1 - 42785 / 10000 * x| + |P2 - 19548 / 10000 * y| := this
      _ ≤ 3 / 2 ^ 53 * (42785 / 10000 * (x : ℚ) + 19548 / 10000 * y) := by linarith
      _ ≤ 3 / 2 ^ 53 * (10 * (42785 / 10000 * x - 19548 / 10000 * y)) :=
          mul_le_mul_of_nonneg_left hK (by norm_num)
      _ = _ := by ring
  obtain ⟨L, hL, heL⟩ := band_tail (42785 / 10000 * x - 19548 / 10000 * y) (P1 - P2) D
    (30 / 2 ^ 53) hN (by norm_num) (by linarith) (by linarith) hD hD'
  exact ⟨L, by rw [hP1, hP2]; exact hL, heL⟩

/-! ## Band selection -/

theorem lit64_045 : lit64 (45 / 100) = .fin (8106479329266893 / 18014398509481984) := by
  decide!

theorem lit64_064 : lit64 (64 / 100) = .fin (5764607523034235 / 9007199254740992) := by
  decide!

theorem lit64_085 : lit64 (85 / 100) = .fin (7656119366529843 / 9007199254740992) := by
  decide!

theorem round32_045 : roundTo 24 (-126) (9 / 20) = 7549747 / 16777216 := by decide!

theorem round32_064 : roundTo 24 (-126) (16 / 25) = 5368709 / 8388608 := by decide!

theorem round32_085 : roundTo 24 (-126) (17 / 20) = 7130317 / 8388608 := by decide!

theorem ratio_gap_lt (y s p q : ℕ) (hs1 : 1 ≤ s) (hs : s ≤ 131070) (hq : 0 < q)
    (hq25 : q ≤ 25) (h : q * y < p * s) : (y : ℚ) / s + 1 / 3276750 ≤ p / q := by
  have h1 : (q : ℚ) * y + 1 ≤ p * s := by exact_mod_cast h
  have hs0 : (0 : ℚ) < s := by exact_mod_cast hs1
  have hq0 : (0 : ℚ) < q := by exact_mod_cast hq
  have hs' : (s : ℚ) ≤ 131070 := by exact_mod_cast hs
  have hq' : (q : ℚ) ≤ 25 := by exact_mod_cast hq25
  have hqs : (q : ℚ) * s ≤ 3276750 := by nlinarith
  rw [← sub_nonneg]
  have e : (p : ℚ) / q - (y / s + 1 / 3276750) =
      (p * s - q * y - q * s / 3276750) / (q * s) := by
    field_simp; ring
  rw [e]
  apply div_nonneg _ (by positivity)
  linarith

theorem ratio_gap_gt (y s p q : ℕ) (hs1 : 1 ≤ s) (hs : s ≤ 131070) (hq : 0 < q)
    (hq25 : q ≤ 25) (h : p * s < q * y) : (p : ℚ) / q + 1 / 3276750 ≤ y / s := by
  have h1 : (p : ℚ) * s + 1 ≤ q * y := by exact_mod_cast h
  have hs0 : (0 : ℚ) < s := by exact_mod_cast hs1
  have hq0 : (0 : ℚ) < q := by exact_mod_cast hq
  have hs' : (s : ℚ) ≤ 131070 := by exact_mod_cast hs
  have hq' : (q : ℚ) ≤ 25 := by exact_mod_cast hq25
  have hqs : (q : ℚ) * s ≤ 3276750 := by nlinarith
  rw [← sub_nonneg]
  have e : (y : ℚ) / s - (p / q + 1 / 3276750) =
      (q * y - p * s - q * s / 3276750) / (q * s) := by
    field_simp; ring
  rw [e]
  apply div_nonneg _ (by positivity)
  linarith

/-- The `float` quotient `ratio` of `ALS_get_lux`: it is finite and within `2^-24` of the
exact quotient. -/
theorem ratio_fin (x y : ℕ) (hx : x ≤ 65535) (hy : y ≤ 65535) (hs : 0 < x + y) :
    fdiv binary32 (int_to_float binary32 y) (int_to_float binary32 ((x : ℤ) + y)) =
        .fin (roundTo 24 (-126) ((y : ℚ) / ((x : ℚ) + y))) ∧
      |roundTo 24 (-126) ((y : ℚ) / ((x : ℚ) + y)) - (y : ℚ) / ((x : ℚ) + y)| ≤ 1 / 2 ^ 24 := by
  have hx' : (x : ℚ) ≤ 65535 := by exact_mod_cast hx
  have hy' : (y : ℚ) ≤ 65535 := by exact_mod_cast hy
  have hx0 : (0 : ℚ) ≤ x := Nat.cast_nonneg x
  have hy0 : (0 : ℚ) ≤ y := Nat.cast_nonneg y
  have hs' : (1 : ℚ) ≤ x + y := by exact_mod_cast hs
  have hspos : (0 : ℚ) < x + y := by linarith
  have e1 : int_to_float binary32 (y : ℤ) = .fin (y : ℚ) := by
    have := int_to_float32_exact (y : ℤ) (by push_cast; rw [abs_of_nonneg hy0]; linarith)
    simpa using this
  have e2 : int_to_float binary32 ((x : ℤ) + y) = .fin ((x : ℚ) + y) := by
    have := int_to_float32_exact ((x : ℤ) + y)
      (by push_cast; rw [abs_of_nonneg hspos.le]; linarith)
    simpa using this
  have hr1 : (y : ℚ) / ((x : ℚ) + y) ≤ 1 := by
    rw [div_le_one hspos]; linarith
  have hr0 : 0 ≤ (y : ℚ) / ((x : ℚ) + y) := div_nonneg hy0 hspos.le
  have hlo : (y : ℚ) / ((x : ℚ) + y) = 0 ∨
      2 * (2 : ℚ) ^ binary32.emin ≤ (y : ℚ) / ((x : ℚ) + y) := by
    rcases Nat.eq_zero_or_pos y with h0 | h0
    · left; simp [h0]
    · right
      have hy1 : (1 : ℚ) ≤ y := by exact_mod_cast h0
      have : (1 : ℚ) / 10000000 ≤ (y : ℚ) / ((x : ℚ) + y) := by
        rw [div_le_div_iff₀ (by norm_num) hspos]; linarith
      linarith [binary32_emin_small]
  obtain ⟨r, hr, her⟩ := round_near binary32 (by decide) (by decide)
    ((y : ℚ) / ((x : ℚ) + y)) ((y : ℚ) / ((x : ℚ) + y)) 0 (by norm_num) (by simp) hlo
    (by linarith [binary32_emax_large])
  have hr' : binary32.round ((y : ℚ) / ((x : ℚ) + y)) =
      .fin (roundTo 24 (-126) ((y : ℚ) / ((x : ℚ) + y))) :=
    round_fin binary32 _ (by decide) (by decide) (by
      rw [abs_of_nonneg hr0]; linarith [binary32_emax_large])
  have hrr : r = roundTo 24 (-126) ((y : ℚ) / ((x : ℚ) + y)) := by
    rw [hr'] at hr
    injection hr with hr
    exact hr.symm
  refine ⟨?_, ?_⟩
  · rw [e1, e2]
    simp only [fdiv, if_neg hspos.ne', hr']
  · rw [← hrr]
    refine her.trans ?_
    simp only [binary32]
    have : (0 + 1 / 2 ^ 24 + 0 * (1 / 2 ^ 24) : ℚ) * ((y : ℚ) / ((x : ℚ) + y)) ≤
        (1 / 2 ^ 24) * 1 := by
      rw [zero_mul, add_zero, zero_add]
      exact mul_le_mul_of_nonneg_left hr1 (by positivity)
    linarith

/-- Away from a threshold `p / q`, the rounded quotient lies on the same side of a
constant `c` close to `p / q` as the exact quotient. -/
theorem ratio_cmp (x y p q : ℕ) (hx : x ≤ 65535) (hy : y ≤ 65535) (hs : 0 < x + y)
    (hq : 0 < q) (hq25 : q ≤ 25) (c : ℚ) (hc : |c - (p : ℚ) / q| ≤ 1 / 100000000) :
    (q * y < p * (x + y) → roundTo 24 (-126) ((y : ℚ) / ((x : ℚ) + y)) < c) ∧
      (p * (x + y) < q * y → c ≤ roundTo 24 (-126) ((y : ℚ) / ((x : ℚ) + y))) := by
  have herr := (abs_le.mp (ratio_fin x y hx hy hs).2)
  have hc' := abs_le.mp hc
  have hcast : ((x + y : ℕ) : ℚ) = (x : ℚ) + y := by push_cast; ring
  constructor
  · intro h
    have := ratio_gap_lt y (x + y) p q hs (by omega) hq hq25 h
    rw [hcast] at this
    have h24 : (1 : ℚ) / 2 ^ 24 ≤ 6 / 100000000 := by norm_num
    linarith [herr.1, herr.2, hc'.1, hc'.2]
  · intro h
    have := ratio_gap_gt y (x + y) p q hs (by omega) hq hq25 h
    rw [hcast] at this
    have h24 : (1 : ℚ) / 2 ^ 24 ≤ 6 / 100000000 := by norm_num
    linarith [herr.1, herr.2, hc'.1, hc'.2]

theorem ratio_eq_of_cross (x y p q : ℕ) (hs : 0 < x + y) (hq : 0 < q)
    (h : q * y = p * (x + y)) : (y : ℚ) / ((x : ℚ) + y) = p / q := by
  have h1 : (q : ℚ) * y = p * (x + y) := by exact_mod_cast h
  have hs' : (0 : ℚ) < x + y := by exact_mod_cast hs
  have hq0 : (0 : ℚ) < q := by exact_mod_cast hq
  rw [div_eq_div_iff hs'.ne' hq0.ne']
  linarith

/-- The rounded quotient is below the constant 0.45 exactly when
`20 * y ≤ 9 * (x + y)`: an exact ratio 0.45 rounds to a `float` below the `double` 0.45. -/
theorem ratio_lt_045 (x y : ℕ) (hx : x ≤ 65535) (hy : y ≤ 65535) (hs : 0 < x + y) :
    roundTo 24 (-126) ((y : ℚ) / ((x : ℚ) + y)) < 8106479329266893 / 18014398509481984 ↔
      20 * y ≤ 9 * (x + y) := by
  have c45 := ratio_cmp x y 9 20 hx hy hs (by decide) (by decide)
    (8106479329266893 / 18014398509481984) (by norm_num [abs_le])
  constructor
  · intro h
    by_contra hc
    have := c45.2 (by omega)
    linarith
  · intro h
    rcases Nat.lt_or_ge (20 * y) (9 * (x + y)) with h1 | h1
    · exact c45.1 h1
    · have e := ratio_eq_of_cross x y 9 20 hs (by decide) (by omega)
      rw [e]
      have := round32_045
      norm_num at this ⊢
      rw [this]; norm_num

/-- The rounded quotient is below the constant 0.64 exactly when
`25 * y ≤ 16 * (x + y)`: an exact ratio 0.64 rounds to a `float` below the `double` 0.64. -/
theorem ratio_lt_064 (x y : ℕ) (hx : x ≤ 65535) (hy : y ≤ 65535) (hs : 0 < x + y) :
    roundTo 24 (-126) ((y : ℚ) / ((x : ℚ) + y)) < 5764607523034235 / 9007199254740992 ↔
      25 * y ≤ 16 * (x + y) := by
  have c64 := ratio_cmp x y 16 25 hx hy hs (by decide) (by decide)
    (5764607523034235 / 9007199254740992) (by norm_num [abs_le])
  constructor
  · intro h
    by_contra hc
    have := c64.2 (by omega)
    linarith
  · intro h
    rcases Nat.lt_or_ge (25 * y) (16 * (x + y)) with h1 | h1
    · exact c64.1 h1
    · have e := ratio_eq_of_cross x y 16 25 hs (by decide) (by omega)
      rw [e]
      have := round32_064
      norm_num at this ⊢
      rw [this]; norm_num

/-- The rounded quotient is below the constant 0.85 exactly when
`20 * y < 17 * (x + y)`: an exact ratio 0.85 rounds to a `float` above the `double` 0.85. -/
theorem ratio_lt_085 (x y : ℕ) (hx : x ≤ 65535) (hy : y ≤ 65535) (hs : 0 < x + y) :
    roundTo 24 (-126) ((y : ℚ) / ((x : ℚ) + y)) < 7656119366529843 / 9007199254740992 ↔
      20 * y < 17 * (x + y) := by
  have c85 := ratio_cmp x y 17 20 hx hy hs (by decide) (by decide)
    (7656119366529843 / 9007199254740992) (by norm_num [abs_le])
  constructor
  · intro h
    by_contra hc
    rcases Nat.lt_or_ge (17 * (x + y)) (20 * y) with h1 | h1
    · have := c85.2 h1
      linarith
    · have e := ratio_eq_of_cross x y 17 20 hs (by decide) (by omega)
      rw [e] at h
      have := round32_085
      norm_num at this h
      rw [this] at h; norm_num at h
  · exact c85.1

/-! ## The lux formula -/

/-- The `float` denominator `ALS_GAIN * ALS_INT` is exact for every entry of the gain
table (the sentinel included) and every entry of the integration-time table. -/
theorem denom_exact : ∀ g ∈ gain_lookup, ∀ t ∈ integration_time_lookup,
    fmul binary32 (int_to_float binary32 g)
      (fdiv binary32 (int_to_float binary32 t) (int_to_float binary32 100)) =
        .fin ((g : ℚ) * ((t : ℚ) / 100)) := by
  decide!

theorem denom_bounds (g t : ℤ) (hg : g ∈ ([1, 2, 4, 8, 48, 96] : List ℤ))
    (ht : t ∈ integration_time_lookup) :
    1 / 2 ≤ (g : ℚ) * ((t : ℚ) / 100) ∧ (g : ℚ) * ((t : ℚ) / 100) ≤ 384 := by
  simp only [integration_time_lookup, List.mem_cons, List.mem_singleton, List.not_mem_nil,
    or_false] at hg ht
  rcases hg with h | h | h | h | h | h <;> rcases ht with h' | h' | h' | h' | h' | h' | h' | h' <;>
    subst h <;> subst h' <;> norm_num

theorem numeric_gain_mem (g : ℤ) (hg : g ∈ ([1, 2, 4, 8, 48, 96] : List ℤ)) :
    g ∈ gain_lookup := by
  simp only [gain_lookup, List.mem_cons, List.mem_singleton, List.not_mem_nil, or_false]
    at hg ⊢
  rcases hg with h | h | h | h | h | h <;> simp [h]

/-- What `ALS_get_lux` computes from channel counts not both zero, a numeric gain and an
integration time of the table: a finite lux within relative error `2^-23` of the formula
of the band; the band is the first for `ch1 / (ch0 + ch1) ≤ 0.45`, the second up to and
including 0.64, the third below 0.85, and the lux is 0 from 0.85 on. -/
theorem lux_arith_spec (x y : ℕ) (hx : x ≤ 65535) (hy : y ≤ 65535) (hs : 0 < x + y)
    (g t : ℤ) (hg : g ∈ ([1, 2, 4, 8, 48, 96] : List ℤ)) (ht : t ∈ integration_time_lookup) :
    ∃ L : ℚ, ALS_get_lux_arith x y g t = .fin L ∧
      (20 * y ≤ 9 * (x + y) →
        |L - (17743 / 10000 * x + 11059 / 10000 * y) / ((g : ℚ) * ((t : ℚ) / 100))| ≤
          (17743 / 10000 * x + 11059 / 10000 * y) / ((g : ℚ) * ((t : ℚ) / 100)) / 2 ^ 23) ∧
      (9 * (x + y) < 20 * y → 25 * y ≤ 16 * (x + y) →
        |L - (42785 / 10000 * x - 19548 / 10000 * y) / ((g : ℚ) * ((t : ℚ) / 100))| ≤
          (42785 / 10000 * x - 19548 / 10000 * y) / ((g : ℚ) * ((t : ℚ) / 100)) / 2 ^ 23) ∧
      (16 * (x + y) < 25 * y → 20 * y < 17 * (x + y) →
        |L - (5926 / 10000 * x + 1185 / 10000 * y) / ((g : ℚ) * ((t : ℚ) / 100))| ≤
          (5926 / 10000 * x + 1185 / 10000 * y) / ((g : ℚ) * ((t : ℚ) / 100)) / 2 ^ 23) ∧
      (17 * (x + y) ≤ 20 * y → L = 0) := by
  obtain ⟨hD, hD'⟩ := denom_bounds g t hg ht
  have hden := denom_exact g (numeric_gain_mem g hg) t ht
  have hx0 : (0 : ℚ) ≤ x := Nat.cast_nonneg x
  have hy0 : (0 : ℚ) ≤ y := Nat.cast_nonneg y
  have hx' : (x : ℚ) ≤ 65535 := by exact_mod_cast hx
  have hy' : (y : ℚ) ≤ 65535 := by exact_mod_cast hy
  have e0 : int_to_float binary32 (x : ℤ) = .fin (x : ℚ) := by
    have := int_to_float32_exact (x : ℤ) (by push_cast; rw [abs_of_nonneg hx0]; linarith)
    simpa using this
  have e1 : int_to_float binary32 (y : ℤ) = .fin (y : ℚ) := by
    have := int_to_float32_exact (y : ℤ) (by push_cast; rw [abs_of_nonneg hy0]; linarith)
    simpa using this
  have ez : int_to_float binary32 0 = .fin 0 := by
    have := int_to_float32_exact 0 (by norm_num)
    simpa using this
  obtain ⟨hratio, -⟩ := ratio_fin x y hx hy hs
  rw [e1] at hratio
  have t45 := ratio_lt_045 x y hx hy hs
  have t64 := ratio_lt_064 x y hx hy hs
  have t85 := ratio_lt_085 x y hx hy hs
  have unfold_eq : ALS_get_lux_arith x y g t =
      if roundTo 24 (-126) ((y : ℚ) / ((x : ℚ) + y)) < 8106479329266893 / 18014398509481984 then
        to_float (fdiv binary64
          (fadd binary64 (fmul binary64 (lit64 (17743 / 10000)) (.fin x))
            (fmul binary64 (lit64 (11059 / 10000)) (.fin y)))
          (.fin ((g : ℚ) * ((t : ℚ) / 100))))
      else if roundTo 24 (-126) ((y : ℚ) / ((x : ℚ) + y)) < 5764607523034235 / 9007199254740992 ∧
          8106479329266893 / 18014398509481984 ≤ roundTo 24 (-126) ((y : ℚ) / ((x : ℚ) + y)) then
        to_float (fdiv binary64
          (fsub binary64 (fmul binary64 (lit64 (42785 / 10000)) (.fin x))
            (fmul binary64 (lit64 (19548 / 10000)) (.fin y)))
          (.fin ((g : ℚ) * ((t : ℚ) / 100))))
      else if roundTo 24 (-126) ((y : ℚ) / ((x : ℚ) + y)) < 7656119366529843 / 9007199254740992 ∧
          5764607523034235 / 9007199254740992 ≤ roundTo 24 (-126) ((y : ℚ) / ((x : ℚ) + y)) then
        to_float (fdiv binary64
          (fadd binary64 (fmul binary64 (lit64 (5926 / 10000)) (.fin x))
            (fmul binary64 (lit64 (1185 / 10000)) (.fin y)))
          (.fin ((g : ℚ) * ((t : ℚ) / 100))))
      else .fin 0 := by
    simp only [ALS_get_lux_arith, e0, e1, ez, hratio, hden, lit64_045, lit64_064, lit64_085,
      flt, fge, Bool.and_eq_true, decide_eq_true_eq]
  rw [unfold_eq]
  by_cases h1 : 20 * y ≤ 9 * (x + y)
  · obtain ⟨L, hL, heL⟩ := band_add_near (17743 / 10000) (11059 / 10000) (by norm_num)
      (by norm_num) (by norm_num) (by norm_num) x y hx hy hs _ hD hD'
    refine ⟨L, ?_, fun _ => heL, fun h => ?_, fun h _ => ?_, fun h => ?_⟩
    · rw [if_pos (t45.mpr h1)]; exact hL
    · omega
    · omega
    · omega
  · have n45 : ¬ roundTo 24 (-126) ((y : ℚ) / ((x : ℚ) + y)) <
        8106479329266893 / 18014398509481984 := fun h => h1 (t45.mp h)
    rw [if_neg n45]
    by_cases h2 : 25 * y ≤ 16 * (x + y)
    · obtain ⟨L, hL, heL⟩ := band_sub_near x y hx hy hs (by omega) _ hD hD'
      refine ⟨L, ?_, fun h => ?_, fun _ _ => heL, fun h _ => ?_, fun h => ?_⟩
      · rw [if_pos ⟨t64.mpr h2, not_lt.mp n45⟩]; exact hL
      · omega
      · omega
      · omega
    · have n64 : ¬ roundTo 24 (-126) ((y : ℚ) / ((x : ℚ) + y)) <
          5764607523034235 / 9007199254740992 := fun h => h2 (t64.mp h)
      rw [if_neg (fun h => n64 h.1)]
      by_cases h3 : 20 * y < 17 * (x + y)
      · obtain ⟨L, hL, heL⟩ := band_add_near (5926 / 10000) (1185 / 10000) (by norm_num)
          (by norm_num) (by norm_num) (by norm_num) x y hx hy hs _ hD hD'
        refine ⟨L, ?_, fun h => ?_, fun _ h => ?_, fun _ _ => heL, fun h => ?_⟩
        · rw [if_pos ⟨t85.mpr h3, not_lt.mp n64⟩]; exact hL
        · omega
        · omega
        · omega
      · have n85 : ¬ roundTo 24 (-126) ((y : ℚ) / ((x : ℚ) + y)) <
            7656119366529843 / 9007199254740992 := fun h => h3 (t85.mp h)
        rw [if_neg (fun h => n85 h.1)]
        exact ⟨0, rfl, fun h => by omega, fun _ h => by omega, fun _ h => by omega, fun _ => rfl⟩

theorem ALS_get_channels_data_le (bus : I2cBus) :
    (ALS_get_channels_data bus).1.1 ≤ 65535 ∧ (ALS_get_channels_data bus).1.2 ≤ 65535 := by
  simp only [ALS_get_channels_data]
  constructor <;> exact Nat.le_of_lt_succ (Nat.mod_lt _ (by decide))

theorem ALS_get_gain_mem (bus : I2cBus) : (ALS_get_gain bus).1 ∈ gain_lookup := by
  have hlt : (read_byte bus ALS_CONTR_REG).2.1 < 256 := by
    simp only [read_byte]; exact Nat.mod_lt _ (by decide)
  have hf := byte_gain_field ⟨_, hlt⟩
  simp only at hf
  have hk : (read_byte bus ALS_CONTR_REG).2.1 / 4 % 8 < 8 := Nat.mod_lt _ (by decide)
  simp only [ALS_get_gain, hf]
  generalize (read_byte bus ALS_CONTR_REG).2.1 / 4 % 8 = k at hk
  interval_cases k <;> simp [gain_lookup]

theorem ALS_get_integration_time_mem (bus : I2cBus) :
    (ALS_get_integration_time bus).1 ∈ integration_time_lookup := by
  have hlt : (read_byte bus ALS_MEAS_RATE_REG).2.1 < 256 := by
    simp only [read_byte]; exact Nat.mod_lt _ (by decide)
  have hf := byte_integration_field ⟨_, hlt⟩
  simp only at hf
  have hk : (read_byte bus ALS_MEAS_RATE_REG).2.1 / 8 % 8 < 8 := Nat.mod_lt _ (by decide)
  simp only [ALS_get_integration_time, hf]
  generalize (read_byte bus ALS_MEAS_RATE_REG).2.1 / 8 % 8 = k at hk
  interval_cases k <;> simp [integration_time_lookup]

theorem gain_numeric_of_ne_reserved (g : ℤ) (hg : g ∈ gain_lookup) (hn : g ≠ RESERVED) :
    g ∈ ([1, 2, 4, 8, 48, 96] : List ℤ) := by
  simp only [gain_lookup, List.mem_cons, List.mem_singleton, List.not_mem_nil, or_false]
    at hg ⊢
  rcases hg with h | h | h | h | h | h | h | h <;> simp_all

theorem cross_le_iff (x y p q : ℕ) (hs : 0 < x + y) (hq : 0 < q) :
    ((y : ℚ) / ((x : ℚ) + y) ≤ (p : ℚ) / q ↔ q * y ≤ p * (x + y)) := by
  have hs' : (0 : ℚ) < (x : ℚ) + y := by exact_mod_cast hs
  have hq0 : (0 : ℚ) < q := by exact_mod_cast hq
  rw [div_le_div_iff₀ hs' hq0]
  constructor
  · intro h
    have : ((q * y : ℕ) : ℚ) ≤ ((p * (x + y) : ℕ) : ℚ) := by push_cast; linarith
    exact_mod_cast this
  · intro h
    have : ((q * y : ℕ) : ℚ) ≤ ((p * (x + y) : ℕ) : ℚ) := by exact_mod_cast h
    push_cast at this; linarith

theorem cross_lt_iff (x y p q : ℕ) (hs : 0 < x + y) (hq : 0 < q) :
    ((y : ℚ) / ((x : ℚ) + y) < (p : ℚ) / q ↔ q * y < p * (x + y)) := by
  have hs' : (0 : ℚ) < (x : ℚ) + y := by exact_mod_cast hs
  have hq0 : (0 : ℚ) < q := by exact_mod_cast hq
  rw [div_lt_div_iff₀ hs' hq0]
  constructor
  · intro h
    have : ((q * y : ℕ) : ℚ) < ((p * (x + y) : ℕ) : ℚ) := by push_cast; linarith
    exact_mod_cast this
  · intro h
    have : ((q * y : ℕ) : ℚ) < ((p * (x + y) : ℕ) : ℚ) := by exact_mod_cast h
    push_cast at this; linarith

/-- The specification of `ALS_get_lux` on a bus, in terms of what its three register
accesses deliver and of the exact ratio `ch1 / (ch0 + ch1)`. -/
theorem ALS_get_lux_spec (bus : I2cBus) (ch0 ch1 : ℕ) (g t : ℤ)
    (hch : (ALS_get_channels_data bus).1 = (ch0, ch1))
    (hg : (ALS_get_gain (ALS_get_channels_data bus).2).1 = g)
    (ht : (ALS_get_integration_time (ALS_get_gain (ALS_get_channels_data bus).2).2).1 = t)
    (hpos : 0 < ch0 + ch1) (hnum : g ≠ RESERVED) :
    ∃ L : ℚ, (ALS_get_lux bus).1 = .fin L ∧
      ((ch1 : ℚ) / ((ch0 : ℚ) + ch1) ≤ 45 / 100 →
        |L - (17743 / 10000 * ch0 + 11059 / 10000 * ch1) / ((g : ℚ) * ((t : ℚ) / 100))| ≤
          (17743 / 10000 * ch0 + 11059 / 10000 * ch1) / ((g : ℚ) * ((t : ℚ) / 100)) / 2 ^ 23) ∧
      (45 / 100 < (ch1 : ℚ) / ((ch0 : ℚ) + ch1) → (ch1 : ℚ) / ((ch0 : ℚ) + ch1) ≤ 64 / 100 →
        |L - (42785 / 10000 * ch0 - 19548 / 10000 * ch1) / ((g : ℚ) * ((t : ℚ) / 100))| ≤
          (42785 / 10000 * ch0 - 19548 / 10000 * ch1) / ((g : ℚ) * ((t : ℚ) / 100)) / 2 ^ 23) ∧
      (64 / 100 < (ch1 : ℚ) / ((ch0 : ℚ) + ch1) → (ch1 : ℚ) / ((ch0 : ℚ) + ch1) < 85 / 100 →
        |L - (5926 / 10000 * ch0 + 1185 / 10000 * ch1) / ((g : ℚ) * ((t : ℚ) / 100))| ≤
          (5926 / 10000 * ch0 + 1185 / 10000 * ch1) / ((g : ℚ) * ((t : ℚ) / 100)) / 2 ^ 23) ∧
      (85 / 100 ≤ (ch1 : ℚ) / ((ch0 : ℚ) + ch1) → L = 0) := by
  have hle := ALS_get_channels_data_le bus
  rw [hch] at hle
  obtain ⟨hx, hy⟩ := hle
  have hgm := ALS_get_gain_mem (ALS_get_channels_data bus).2
  rw [hg] at hgm
  have hg' := gain_numeric_of_ne_reserved g hgm hnum
  have htm := ALS_get_integration_time_mem (ALS_get_gain (ALS_get_channels_data bus).2).2
  rw [ht] at htm
  obtain ⟨L, hL, b1, b2, b3, b4⟩ := lux_arith_spec ch0 ch1 hx hy hpos g t hg' htm
  have hlux : (ALS_get_lux bus).1 = ALS_get_lux_arith ch0 ch1 g t := by
    simp only [ALS_get_lux, hch, hg, ht]
  refine ⟨L, by rw [hlux]; exact hL, ?_⟩
  have k45 := cross_le_iff ch0 ch1 9 20 hpos (by decide)
  have k64 := cross_le_iff ch0 ch1 16 25 hpos (by decide)
  have k85 := cross_lt_iff ch0 ch1 17 20 hpos (by decide)
  have e45 : ((9 : ℕ) : ℚ) / (20 : ℕ) = 45 / 100 := by norm_num
  have e64 : ((16 : ℕ) : ℚ) / (25 : ℕ) = 64 / 100 := by norm_num
  have e85 : ((17 : ℕ) : ℚ) / (20 : ℕ) = 85 / 100 := by norm_num
  rw [e45] at k45
  rw [e64] at k64
  rw [e85] at k85
  refine ⟨fun h => b1 (k45.mp h), fun h h' => b2 ?_ (k64.mp h'), fun h h' => b3 ?_ (k85.mp h'),
    fun h => b4 ?_⟩
  · by_contra hc
    exact absurd (k45.mpr (Nat.le_of_not_lt hc)) (not_le.mpr h)
  · by_contra hc
    exact absurd (k64.mpr (Nat.le_of_not_lt hc)) (not_le.mpr h)
  · by_contra hc
    exact absurd (k85.mpr (Nat.lt_of_not_le hc)) (not_lt.mpr h)

/-! ## Decomposition into integer part and millionths -/

theorem tmod_bounds (a b : ℤ) (hb : 0 < b) :
    -b < a.tmod b ∧ a.tmod b < b ∧ (0 ≤ a → 0 ≤ a.tmod b) ∧ (a ≤ 0 → a.tmod b ≤ 0) := by
  obtain ⟨k, rfl⟩ := Int.eq_ofNat_of_zero_le hb.le
  have hk : 0 < k := by exact_mod_cast hb
  cases a with
  | ofNat m =>
    have e : (Int.ofNat m).tmod (k : ℤ) = ((m % k : ℕ) : ℤ) := rfl
    have hlt : m % k < k := Nat.mod_lt _ hk
    rw [e]
    refine ⟨by omega, by omega, fun _ => by omega, fun h => ?_⟩
    have hm : m = 0 := by
      have : (m : ℤ) ≤ 0 := h
      omega
    subst hm
    simp
  | negSucc m =>
    have e : (Int.negSucc m).tmod (k : ℤ) = -(((m + 1) % k : ℕ) : ℤ) := rfl
    have hlt : (m + 1) % k < k := Nat.mod_lt _ hk
    rw [e]
    refine ⟨by omega, by omega, fun h => ?_, fun _ => by omega⟩
    have : (Int.negSucc m) < 0 := Int.negSucc_lt_zero m
    omega

theorem roundHalfEven_nonneg (y : ℚ) (hy : 0 ≤ y) : 0 ≤ roundHalfEven y := by
  unfold roundHalfEven
  have hf : 0 ≤ ⌊y⌋ := Int.floor_nonneg.mpr hy
  simp only
  split_ifs <;> omega

theorem roundHalfEven_nonpos (y : ℚ) (hy : y ≤ 0) : roundHalfEven y ≤ 0 := by
  unfold roundHalfEven
  have h1 := Int.floor_le y
  have hf : ⌊y⌋ ≤ 0 := by
    have : (⌊y⌋ : ℚ) ≤ 0 := h1.trans hy
    exact_mod_cast this
  simp only
  have key : 1 / 2 ≤ y - ⌊y⌋ → ⌊y⌋ + 1 ≤ 0 := by
    intro h
    have : (⌊y⌋ : ℚ) < 0 := by linarith
    have : ⌊y⌋ < 0 := by exact_mod_cast this
    omega
  split_ifs with a b c
  · exact hf
  · exact key b.le
  · exact hf
  · exact key (not_lt.mp a)

theorem roundTo_nonneg (p : ℕ) (emin : ℤ) (x : ℚ) (hx : 0 ≤ x) : 0 ≤ roundTo p emin x := by
  unfold roundTo
  split_ifs with h
  · exact le_rfl
  · simp only [pow2_eq]
    have hpos : (0 : ℚ) < (2 : ℚ) ^ (max (ilog2 |x|) emin - ((p : ℤ) - 1)) :=
      zpow_pos (by norm_num) _
    have := roundHalfEven_nonneg (x / (2 : ℚ) ^ (max (ilog2 |x|) emin - ((p : ℤ) - 1)))
      (div_nonneg hx hpos.le)
    have h2 : (0 : ℚ) ≤ roundHalfEven (x / (2 : ℚ) ^ (max (ilog2 |x|) emin - ((p : ℤ) - 1))) := by
      exact_mod_cast this
    exact mul_nonneg h2 hpos.le

theorem roundTo_nonpos (p : ℕ) (emin : ℤ) (x : ℚ) (hx : x ≤ 0) : roundTo p emin x ≤ 0 := by
  unfold roundTo
  split_ifs with h
  · exact le_rfl
  · simp only [pow2_eq]
    have hpos : (0 : ℚ) < (2 : ℚ) ^ (max (ilog2 |x|) emin - ((p : ℤ) - 1)) :=
      zpow_pos (by norm_num) _
    have := roundHalfEven_nonpos (x / (2 : ℚ) ^ (max (ilog2 |x|) emin - ((p : ℤ) - 1)))
      (div_nonpos_of_nonpos_of_nonneg hx hpos.le)
    have h2 : (roundHalfEven (x / (2 : ℚ) ^ (max (ilog2 |x|) emin - ((p : ℤ) - 1))) : ℚ) ≤ 0 := by
      exact_mod_cast this
    exact mul_nonpos_of_nonpos_of_nonneg h2 hpos.le

theorem roundTo_abs_le (p : ℕ) (emin : ℤ) (x : ℚ) (hemin : emin ≤ p) :
    |roundTo p emin x| ≤ 2 * |x| + 1 := by
  by_cases h0 : x = 0
  · rw [h0, roundTo_zero]; simp
  · have hpos : 0 < |x| := abs_pos.mpr h0
    have h := roundTo_abs_err p emin x h0
    have e : (2 : ℚ) ^ (max (ilog2 |x|) emin - ((p : ℤ) - 1)) / 2 =
        (2 : ℚ) ^ (max (ilog2 |x|) emin - (p : ℤ)) := by
      rw [zpow_sub₀ (by norm_num), zpow_sub₀ (by norm_num), zpow_sub₀ (by norm_num), zpow_one]
      field_simp
      ring
    rw [e] at h
    have hb : (2 : ℚ) ^ (max (ilog2 |x|) emin - (p : ℤ)) ≤ |x| + 1 := by
      rcases le_total emin (ilog2 |x|) with hc | hc
      · rw [max_eq_left hc]
        have h1 : (2 : ℚ) ^ (ilog2 |x| - (p : ℤ)) ≤ (2 : ℚ) ^ ilog2 |x| :=
          zpow_le_zpow_right₀ (by norm_num) (by omega)
        have h2 := (ilog2_spec |x| hpos).1
        linarith
      · rw [max_eq_right hc]
        have h1 : (2 : ℚ) ^ (emin - (p : ℤ)) ≤ (2 : ℚ) ^ (0 : ℤ) :=
          zpow_le_zpow_right₀ (by norm_num) (by omega)
        rw [zpow_zero] at h1
        linarith
    have h3 : |roundTo p emin x| ≤ |roundTo p emin x - x| + |x| := by
      have := abs_add (roundTo p emin x - x) x
      simpa using this
    linarith

theorem truncate_abs_le (q : ℚ) : |(truncate q : ℚ)| ≤ |q| := by
  unfold truncate
  split_ifs with h
  · have h1 := Int.floor_le q
    have h2 : (0 : ℚ) ≤ ⌊q⌋ := by exact_mod_cast Int.floor_nonneg.mpr h
    rw [abs_of_nonneg h2, abs_of_nonneg h]; exact h1
  · have hq : q < 0 := not_le.mp h
    have h1 := Int.le_ceil q
    have h2 : (⌈q⌉ : ℚ) ≤ 0 := by
      have : ⌈q⌉ ≤ 0 := Int.ceil_le.mpr (by simpa using hq.le)
      exact_mod_cast this
    rw [abs_of_nonpos h2, abs_of_neg hq]; linarith

theorem truncate_sign (q : ℚ) : (0 ≤ q → 0 ≤ truncate q) ∧ (q ≤ 0 → truncate q ≤ 0) := by
  unfold truncate
  constructor
  · intro h
    rw [if_pos h]; exact Int.floor_nonneg.mpr h
  · intro h
    split_ifs with h'
    · have : q = 0 := le_antisymm h h'
      rw [this]; simp
    · exact Int.ceil_le.mpr (by simpa using h)

/-- The decomposition performed by `si7006_channel_get` on a finite cached value `v` that
fits `s32_t`. -/
theorem si7006_decompose_spec (v : ℚ) (hv : |v| < 2147483648) :
    si7006_decompose (.fin v) =
        some ⟨truncate v, (truncate (roundTo 24 (-126) (v * 1000000))).tmod 1000000⟩ ∧
      -999999 ≤ (truncate (roundTo 24 (-126) (v * 1000000))).tmod 1000000 ∧
      (truncate (roundTo 24 (-126) (v * 1000000))).tmod 1000000 ≤ 999999 ∧
      (0 ≤ v → 0 ≤ (truncate (roundTo 24 (-126) (v * 1000000))).tmod 1000000) ∧
      (v ≤ 0 → (truncate (roundTo 24 (-126) (v * 1000000))).tmod 1000000 ≤ 0) := by
  have hm : int_to_float binary32 1000000 = .fin 1000000 := by
    have := int_to_float32_exact 1000000 (by norm_num)
    simpa using this
  have hx : |v * 1000000| ≤ 2147483648 * 1000000 := by
    rw [abs_mul, abs_of_pos (by norm_num : (0 : ℚ) < 1000000)]
    have := hv.le
    nlinarith [abs_nonneg v]
  have hprod : fmul binary32 (.fin v) (.fin 1000000) =
      .fin (roundTo 24 (-126) (v * 1000000)) := by
    simp only [fmul]
    exact round_fin binary32 _ (by decide) (by decide) (by
      have : (2147483648 * 1000000 : ℚ) ≤ (2 : ℚ) ^ binary32.emax := by
        simp only [binary32]; norm_num
      linarith)
  have hr := roundTo_abs_le 24 (-126) (v * 1000000) (by norm_num)
  have ht1 := truncate_abs_le v
  have ht2 := truncate_abs_le (roundTo 24 (-126) (v * 1000000))
  have b1 : -2147483648 ≤ truncate v ∧ truncate v ≤ 2147483647 := by
    have h : |(truncate v : ℚ)| < 2147483648 := lt_of_le_of_lt ht1 hv
    have h' := abs_lt.mp h
    have h1 : ((-2147483648 : ℤ) : ℚ) < (truncate v : ℚ) := by push_cast; exact h'.1
    have h2 : (truncate v : ℚ) < ((2147483648 : ℤ) : ℚ) := by push_cast; exact h'.2
    have h1' : (-2147483648 : ℤ) < truncate v := by exact_mod_cast h1
    have h2' : truncate v < (2147483648 : ℤ) := by exact_mod_cast h2
    omega
  have b2 : -9223372036854775808 ≤ truncate (roundTo 24 (-126) (v * 1000000)) ∧
      truncate (roundTo 24 (-126) (v * 1000000)) ≤ 9223372036854775807 := by
    have h : |(truncate (roundTo 24 (-126) (v * 1000000)) : ℚ)| < 9223372036854775807 := by
      linarith
    have h' := abs_lt.mp h
    have h1 : ((-9223372036854775807 : ℤ) : ℚ) <
        (truncate (roundTo 24 (-126) (v * 1000000)) : ℚ) := by push_cast; exact h'.1
    have h2 : (truncate (roundTo 24 (-126) (v * 1000000)) : ℚ) <
        ((9223372036854775807 : ℤ) : ℚ) := by push_cast; exact h'.2
    have h1' : (-9223372036854775807 : ℤ) < truncate (roundTo 24 (-126) (v * 1000000)) := by
      exact_mod_cast h1
    have h2' : truncate (roundTo 24 (-126) (v * 1000000)) < (9223372036854775807 : ℤ) := by
      exact_mod_cast h2
    omega
  obtain ⟨m1, m2, m3, m4⟩ :=
    tmod_bounds (truncate (roundTo 24 (-126) (v * 1000000))) 1000000 (by norm_num)
  refine ⟨?_, by omega, by omega, fun h => ?_, fun h => ?_⟩
  · simp only [si7006_decompose, hm, hprod, float_to_s32, float_to_s64, float_to_int,
      if_pos b1, if_pos b2]
  · exact m3 ((truncate_sign _).1 (roundTo_nonneg _ _ _ (by positivity)))
  · exact m4 ((truncate_sign _).2 (roundTo_nonpos _ _ _ (by nlinarith)))

/-! ## The lux computation: claims -/

/-- C3, as stated, fails: for ch0 = 100, ch1 = 30, gain 1 and 100 ms (ratio about 0.23,
well inside the first band) the claim gives the lux 210.607. `ALS_get_lux` returns the
`float` 3450585/16384 = 210.60699462890625, the rounded value of the formula, which is
not 210.607. -/
theorem C3_counterexample :
    (ALS_get_channels_data (regBus (alsRegs 4 100 0 30 0 1 0))).1 = (100, 30) ∧
    (ALS_get_gain (ALS_get_channels_data (regBus (alsRegs 4 100 0 30 0 1 0))).2).1 = 1 ∧
    (ALS_get_integration_time (ALS_get_gain
      (ALS_get_channels_data (regBus (alsRegs 4 100 0 30 0 1 0))).2).2).1 = 100 ∧
    (30 : ℚ) / (100 + 30) < 45 / 100 ∧
    (17743 / 10000 * 100 + 11059 / 10000 * 30) / (1 * (100 / 100)) = (210607 / 1000 : ℚ) ∧
    (ALS_get_lux (regBus (alsRegs 4 100 0 30 0 1 0))).1 ≠
      .fin ((17743 / 10000 * 100 + 11059 / 10000 * 30) / (1 * (100 / 100))) ∧
    (ALS_get_lux (regBus (alsRegs 4 100 0 30 0 1 0))).1 = .fin (3450585 / 16384) ∧
    (3450585 / 16384 : ℚ) ≠ 210607 / 1000 := by
  refine ⟨by decide!, by decide!, by decide!, by norm_num, by norm_num, by decide!,
    by decide!, by norm_num⟩

/-- C3, amended: for channel counts not both zero, a numeric gain `g` and the integration
time `t`, with `ratio = ch1 / (ch0 + ch1)` and `denom = g * (t / 100)`, `ALS_get_lux`
returns a finite lux that equals the band formula up to a relative rounding error of at
most `2^-23`: `(1.7743 ch0 + 1.1059 ch1) / denom` when `ratio < 0.45`,
`(4.2785 ch0 - 1.9548 ch1) / denom` when `0.45 < ratio < 0.64`,
`(0.5926 ch0 + 0.1185 ch1) / denom` when `0.64 < ratio < 0.85`, and exactly 0 when
`ratio ≥ 0.85`. Counts whose ratio is exactly 0.45 or 0.64 are not covered. For ch0 = 100,
ch1 = 30, gain 1, 100 ms the lux is 3450585/16384 = 210.60699462890625. -/
theorem C3_lux_bands (bus : I2cBus) (ch0 ch1 : ℕ) (g t : ℤ)
    (hch : (ALS_get_channels_data bus).1 = (ch0, ch1))
    (hg : (ALS_get_gain (ALS_get_channels_data bus).2).1 = g)
    (ht : (ALS_get_integration_time (ALS_get_gain (ALS_get_channels_data bus).2).2).1 = t)
    (hpos : 0 < ch0 + ch1) (hnum : g ≠ RESERVED) :
    (∃ L : ℚ, (ALS_get_lux bus).1 = .fin L ∧
      ((ch1 : ℚ) / ((ch0 : ℚ) + ch1) < 45 / 100 →
        |L - (17743 / 10000 * ch0 + 11059 / 10000 * ch1) / ((g : ℚ) * ((t : ℚ) / 100))| ≤
          (17743 / 10000 * ch0 + 11059 / 10000 * ch1) / ((g : ℚ) * ((t : ℚ) / 100)) / 2 ^ 23) ∧
      (45 / 100 < (ch1 : ℚ) / ((ch0 : ℚ) + ch1) → (ch1 : ℚ) / ((ch0 : ℚ) + ch1) < 64 / 100 →
        |L - (42785 / 10000 * ch0 - 19548 / 10000 * ch1) / ((g : ℚ) * ((t : ℚ) / 100))| ≤
          (42785 / 10000 * ch0 - 19548 / 10000 * ch1) / ((g : ℚ) * ((t : ℚ) / 100)) / 2 ^ 23) ∧
      (64 / 100 < (ch1 : ℚ) / ((ch0 : ℚ) + ch1) → (ch1 : ℚ) / ((ch0 : ℚ) + ch1) < 85 / 100 →
        |L - (5926 / 10000 * ch0 + 1185 / 10000 * ch1) / ((g : ℚ) * ((t : ℚ) / 100))| ≤
          (5926 / 10000 * ch0 + 1185 / 10000 * ch1) / ((g : ℚ) * ((t : ℚ) / 100)) / 2 ^ 23) ∧
      (85 / 100 ≤ (ch1 : ℚ) / ((ch0 : ℚ) + ch1) → L = 0)) ∧
    (ALS_get_lux (regBus (alsRegs 4 100 0 30 0 1 0))).1 = .fin (3450585 / 16384) := by
  obtain ⟨L, hL, b1, b2, b3, b4⟩ := ALS_get_lux_spec bus ch0 ch1 g t hch hg ht hpos hnum
  exact ⟨⟨L, hL, fun h => b1 h.le, fun h1 h2 => b2 h1 h2.le, b3, b4⟩, by decide!⟩

/-- C3, amended, at ch0 = 300, ch1 = 200 (ratio 0.4), gain 2 and 200 ms. -/
theorem C3_lux_bands_witness :
    ∃ L : ℚ, (ALS_get_lux (regBus (alsRegs 4 0x2C 1 0xC8 0 0x05 0x10))).1 = .fin L ∧
      |L - (17743 / 10000 * 300 + 11059 / 10000 * 200) / (2 * (200 / 100))| ≤
        (17743 / 10000 * 300 + 11059 / 10000 * 200) / (2 * (200 / 100)) / 2 ^ 23 := by
  obtain ⟨⟨L, hL, h1, -⟩, -⟩ := C3_lux_bands (regBus (alsRegs 4 0x2C 1 0xC8 0 0x05 0x10))
    300 200 2 200 (by decide!) (by decide!) (by decide!) (by decide) (by decide)
  refine ⟨L, hL, ?_⟩
  have := h1 (by norm_num)
  norm_num at this ⊢
  exact this

/-- C4: the code at the failing inputs, gain 1 and 100 ms. For ch0 = 55, ch1 = 45 the
exact ratio is 0.45, but the `float` ratio is below the `double` constant 0.45: the test
`ratio < 0.45` succeeds, `ratio >= 0.45` fails, and `ALS_get_lux` returns
9656861/65536 = 147.35200500488281, the first-band formula rounded, which is not the
second-band value 147.3515, not even up to a relative rounding error of `2^-23`. For
ch0 = 36, ch1 = 64 the exact ratio is 0.64, the `float` ratio is below the `double`
constant 0.64, `ratio >= 0.64` fails, and the result is
3790445/131072 = 28.918800354003906, the second-band formula rounded, not the third-band
value 28.9176. For ch0 = 15, ch1 = 85 (ratio 0.85) the lux is 0, as the claim says. -/
theorem C4_boundary_ratio_takes_lower_band :
    ((ALS_get_channels_data (regBus (alsRegs 4 55 0 45 0 1 0))).1 = (55, 45) ∧
      (ALS_get_gain (ALS_get_channels_data (regBus (alsRegs 4 55 0 45 0 1 0))).2).1 = 1 ∧
      (ALS_get_integration_time (ALS_get_gain
        (ALS_get_channels_data (regBus (alsRegs 4 55 0 45 0 1 0))).2).2).1 = 100 ∧
      (45 : ℚ) / (55 + 45) = 45 / 100 ∧
      flt (fdiv binary32 (int_to_float binary32 45) (int_to_float binary32 (55 + 45)))
        (lit64 (45 / 100)) = true ∧
      fge (fdiv binary32 (int_to_float binary32 45) (int_to_float binary32 (55 + 45)))
        (lit64 (45 / 100)) = false ∧
      (ALS_get_lux (regBus (alsRegs 4 55 0 45 0 1 0))).1 = .fin (9656861 / 65536) ∧
      (ALS_get_lux (regBus (alsRegs 4 55 0 45 0 1 0))).1 =
        to_float (fdiv binary64
          (fadd binary64 (fmul binary64 (lit64 (17743 / 10000)) (.fin 55))
            (fmul binary64 (lit64 (11059 / 10000)) (.fin 45)))
          (.fin (1 * (100 / 100)))) ∧
      ¬ |(9656861 / 65536 : ℚ) -
          (42785 / 10000 * 55 - 19548 / 10000 * 45) / (1 * (100 / 100))| ≤
        (42785 / 10000 * 55 - 19548 / 10000 * 45) / (1 * (100 / 100)) / 2 ^ 23) ∧
    ((ALS_get_channels_data (regBus (alsRegs 4 36 0 64 0 1 0))).1 = (36, 64) ∧
      (64 : ℚ) / (36 + 64) = 64 / 100 ∧
      flt (fdiv binary32 (int_to_float binary32 64) (int_to_float binary32 (36 + 64)))
        (lit64 (64 / 100)) = true ∧
      fge (fdiv binary32 (int_to_float binary32 64) (int_to_float binary32 (36 + 64)))
        (lit64 (64 / 100)) = false ∧
      (ALS_get_lux (regBus (alsRegs 4 36 0 64 0 1 0))).1 = .fin (3790445 / 131072) ∧
      (ALS_get_lux (regBus (alsRegs 4 36 0 64 0 1 0))).1 =
        to_float (fdiv binary64
          (fsub binary64 (fmul binary64 (lit64 (42785 / 10000)) (.fin 36))
            (fmul binary64 (lit64 (19548 / 10000)) (.fin 64)))
          (.fin (1 * (100 / 100)))) ∧
      ¬ |(3790445 / 131072 : ℚ) -
          (5926 / 10000 * 36 + 1185 / 10000 * 64) / (1 * (100 / 100))| ≤
        (5926 / 10000 * 36 + 1185 / 10000 * 64) / (1 * (100 / 100)) / 2 ^ 23) ∧
    ((ALS_get_channels_data (regBus (alsRegs 4 15 0 85 0 1 0))).1 = (15, 85) ∧
      (ALS_get_lux (regBus (alsRegs 4 15 0 85 0 1 0))).1 = .fin 0) ∧
    roundTo 24 (-126) (45 / 100) < roundTo 53 (-1022) (45 / 100) ∧
    roundTo 24 (-126) (64 / 100) < roundTo 53 (-1022) (64 / 100) := by
  refine ⟨⟨by decide!, by decide!, by decide!, by norm_num, by decide!, by decide!,
      by decide!, by decide!, ?_⟩,
    ⟨by decide!, by norm_num, by decide!, by decide!, by decide!, by decide!, ?_⟩,
    ⟨by decide!, by decide!⟩, by decide!, by decide!⟩
  · norm_num [abs_le]
  · norm_num [abs_le]

/-- C5: the code at the failing input. With the control byte 0x10 (gain code 4, a RESERVED
entry), ch0 = 100, ch1 = 30 and 100 ms, `ALS_get_gain` returns the sentinel -1 and
`ALS_get_lux` divides the first-band value by `RESERVED * 1.0`: the lux is
-3450585/16384 = -210.60699462890625, negative, and the fetch then converts a negative
`float` to `uint16_t`, which has no defined result. -/
theorem C5_reserved_gain_used :
    (ALS_get_gain (ALS_get_channels_data (regBus (alsRegs 4 100 0 30 0 0x10 0))).2).1 =
      RESERVED ∧
    (ALS_get_lux (regBus (alsRegs 4 100 0 30 0 0x10 0))).1 = .fin (-3450585 / 16384) ∧
    (ALS_get_lux (regBus (alsRegs 4 100 0 30 0 0x10 0))).1 =
      to_float (fdiv binary64
        (fadd binary64 (fmul binary64 (lit64 (17743 / 10000)) (.fin 100))
          (fmul binary64 (lit64 (11059 / 10000)) (.fin 30)))
        (.fin ((RESERVED : ℚ) * (100 / 100)))) ∧
    (-3450585 / 16384 : ℚ) < 0 ∧
    (ltr329als01_sample_fetch ⟨regBus (alsRegs 4 100 0 30 0 0x10 0), 0⟩
      .SENSOR_CHAN_LIGHT).isNone = true := by
  refine ⟨by decide!, by decide!, by decide!, by norm_num, by decide!⟩

/-! ## Decomposition: claims -/

/-- C6, as stated, fails: for the cached temperature -5.25 `si7006_channel_get` returns
`(-5, -250000)`. The fraction part is negative, where the claim has the non-negative
magnitude `trunc(|v| * 1000000) mod 1000000 = 250000`. -/
theorem C6_counterexample :
    si7006_channel_get ⟨regBus (fun _ => 0), .fin (-21 / 4), .fin 0⟩
      .SENSOR_CHAN_AMBIENT_TEMP ⟨0, 0⟩ = some (0, ⟨-5, -250000⟩) ∧
    truncate (|(-21 / 4 : ℚ)| * 1000000) % 1000000 = 250000 ∧
    ¬ (0 ≤ (-250000 : ℤ)) := by
  refine ⟨by decide!, by decide!, by decide⟩

/-- C6, amended: for every finite cached value `v` (temperature or humidity) that fits
`s32_t`, the get returns integerPart = `v` truncated toward zero and fractionPartMicros =
the C remainder by 1000000 of `trunc(fl(v * 1000000))`, where `fl` rounds the product to
`float`. The remainder carries the sign of `v`: it lies in -999999..999999, is
non-negative for `v ≥ 0` and non-positive for `v ≤ 0`. For example `v = -5.25` gives
`(-5, -250000)`, `v = 23.5` gives `(23, 500000)`, and the `float` nearest to 23.456789
gives `(23, 456790)`. -/
theorem C6_get_decomposition (dev : si7006_data) (val : sensor_value) (v : ℚ)
    (hv : |v| < 2147483648) :
    (dev.temperature = .fin v →
      si7006_channel_get dev .SENSOR_CHAN_AMBIENT_TEMP val =
        some (0, ⟨truncate v, (truncate (roundTo 24 (-126) (v * 1000000))).tmod 1000000⟩)) ∧
    (dev.humidity = .fin v →
      si7006_channel_get dev .SENSOR_CHAN_HUMIDITY val =
        some (0, ⟨truncate v, (truncate (roundTo 24 (-126) (v * 1000000))).tmod 1000000⟩)) ∧
    -999999 ≤ (truncate (roundTo 24 (-126) (v * 1000000))).tmod 1000000 ∧
    (truncate (roundTo 24 (-126) (v * 1000000))).tmod 1000000 ≤ 999999 ∧
    (0 ≤ v → 0 ≤ (truncate (roundTo 24 (-126) (v * 1000000))).tmod 1000000) ∧
    (v ≤ 0 → (truncate (roundTo 24 (-126) (v * 1000000))).tmod 1000000 ≤ 0) ∧
    si7006_decompose (.fin (-21 / 4)) = some ⟨-5, -250000⟩ ∧
    si7006_decompose (.fin (47 / 2)) = some ⟨23, 500000⟩ ∧
    roundTo 24 (-126) (23456789 / 1000000) = 12298113 / 524288 ∧
    si7006_decompose (.fin (12298113 / 524288)) = some ⟨23, 456790⟩ := by
  obtain ⟨h1, h2, h3, h4, h5⟩ := si7006_decompose_spec v hv
  refine ⟨fun h => ?_, fun h => ?_, h2, h3, h4, h5, by decide!, by decide!, by decide!,
    by decide!⟩
  · rw [si7006_channel_get, if_pos rfl, h, h1]; rfl
  · rw [si7006_channel_get, if_neg (by decide), if_pos rfl, h, h1]; rfl

/-- C6, amended, at the cached temperature -5.25. -/
theorem C6_get_decomposition_witness :
    si7006_channel_get ⟨regBus (fun _ => 0), .fin (-21 / 4), .fin (47 / 2)⟩
        .SENSOR_CHAN_AMBIENT_TEMP ⟨0, 0⟩ =
      some (0, ⟨truncate (-21 / 4),
        (truncate (roundTo 24 (-126) (-21 / 4 * 1000000))).tmod 1000000⟩) :=
  (C6_get_decomposition ⟨regBus (fun _ => 0), .fin (-21 / 4), .fin (47 / 2)⟩ ⟨0, 0⟩ (-21 / 4)
    (by norm_num [abs_lt])).1 rfl

/-- C7: the code at the failing input. With ch0 = 100, ch1 = 30, gain 1 and 100 ms the
fetch computes the lux 3450585/16384 = 210.60699462890625, returns 0 and caches it in the
`uint16_t` field as 210; the get that follows returns `(210, 0)`. The fraction of the
computed lux is lost: the decomposition of the computed lux itself has the fraction part
606994, and the claim has `(210, 607000)`. -/
theorem C7_fraction_lost :
    (ALS_get_lux (ALS_check_for_new_valid_data
      (regBus (alsRegs 4 100 0 30 0 1 0))).2).1 = .fin (3450585 / 16384) ∧
    (ltr329als01_sample_fetch ⟨regBus (alsRegs 4 100 0 30 0 1 0), 0⟩
      .SENSOR_CHAN_LIGHT).map (fun r => (r.1, r.2.lux_val)) = some (0, 210) ∧
    (ltr329als01_sample_fetch ⟨regBus (alsRegs 4 100 0 30 0 1 0), 0⟩
      .SENSOR_CHAN_LIGHT).bind
        (fun r => ltr329als01_channel_get r.2 .SENSOR_CHAN_LIGHT ⟨0, 0⟩) =
      some (0, ⟨210, 0⟩) ∧
    truncate (3450585 / 16384) = 210 ∧
    (truncate (3450585 / 16384 * 1000000)).tmod 1000000 = 606994 := by
  refine ⟨by decide!, by decide!, by decide!, by decide!, by decide!⟩

/-! ## The thermo-hygro conversions -/

theorem roundTo_dyadic (p : ℕ) (emin : ℤ) (n : ℤ) (k : ℕ) (hemin : emin ≤ (p : ℤ) - 1 - k)
    (hn : |(n : ℚ)| < (2 : ℚ) ^ p) : roundTo p emin ((n : ℚ) / 2 ^ k) = (n : ℚ) / 2 ^ k := by
  have h2k : (0 : ℚ) < 2 ^ k := by positivity
  by_cases h0 : (n : ℚ) / 2 ^ k = 0
  · rw [h0, roundTo_zero]
  · have hpos : 0 < |(n : ℚ) / 2 ^ k| := abs_pos.mpr h0
    have habs : |(n : ℚ) / 2 ^ k| < (2 : ℚ) ^ ((p : ℤ) - k) := by
      rw [abs_div, abs_of_pos h2k, zpow_sub₀ (by norm_num), zpow_natCast, zpow_natCast]
      exact div_lt_div_of_pos_right hn h2k
    have hlog : ilog2 |(n : ℚ) / 2 ^ k| < (p : ℤ) - k := by
      have h1 : (2 : ℚ) ^ ilog2 |(n : ℚ) / 2 ^ k| < (2 : ℚ) ^ ((p : ℤ) - k) :=
        lt_of_le_of_lt (ilog2_spec _ hpos).1 habs
      exact (zpow_lt_zpow_iff_right₀ (by norm_num : (1 : ℚ) < 2)).mp h1
    have hmax : max (ilog2 |(n : ℚ) / 2 ^ k|) emin ≤ (p : ℤ) - 1 - k := max_le (by omega) hemin
    obtain ⟨j, hj⟩ : ∃ j : ℕ, max (ilog2 |(n : ℚ) / 2 ^ k|) emin - ((p : ℤ) - 1) =
        -((k : ℤ) + j) :=
      ⟨((p : ℤ) - 1 - k - max (ilog2 |(n : ℚ) / 2 ^ k|) emin).toNat, by omega⟩
    apply roundTo_exact p emin _ h0 (n * 2 ^ j)
    rw [hj, zpow_neg, zpow_add₀ (by norm_num), zpow_natCast, zpow_natCast]
    push_cast
    field_simp
    ring

theorem round32_dyadic (n : ℤ) (k : ℕ) (hk : k ≤ 100) (hn : |(n : ℚ)| < 16777216) :
    binary32.round ((n : ℚ) / 2 ^ k) = .fin ((n : ℚ) / 2 ^ k) := by
  have h1 : roundTo 24 (-126) ((n : ℚ) / 2 ^ k) = (n : ℚ) / 2 ^ k :=
    roundTo_dyadic 24 (-126) n k (by push_cast; omega) (by norm_num; exact hn)
  have h2k : (1 : ℚ) ≤ 2 ^ k := one_le_pow₀ (by norm_num)
  have h2 : |(n : ℚ) / 2 ^ k| ≤ (2 : ℚ) ^ (binary32.emax) := by
    rw [abs_div, abs_of_pos (by positivity : (0 : ℚ) < 2 ^ k)]
    have h3 : |(n : ℚ)| / 2 ^ k ≤ |(n : ℚ)| := div_le_self (abs_nonneg _) h2k
    have : (16777216 : ℚ) ≤ (2 : ℚ) ^ (binary32.emax) := by
      simp only [binary32]; norm_num
    linarith
  rw [round_fin binary32 _ (by decide) (by decide) h2]
  simp only [binary32, h1]

/-- The `float` arithmetic of `si7006_get_humidity` is exact on every 16-bit code. -/
theorem humidity_arith_exact (code : ℕ) (hc : code ≤ 65535) :
    fsub binary32
      (fdiv binary32
        (fmul binary32 (int_to_float binary32 125) (int_to_float binary32 code))
        (int_to_float binary32 65536))
      (int_to_float binary32 6) = .fin (125 * (code : ℚ) / 65536 - 6) := by
  have hc' : (code : ℚ) ≤ 65535 := by exact_mod_cast hc
  have hc0 : (0 : ℚ) ≤ code := Nat.cast_nonneg code
  have e125 : int_to_float binary32 125 = .fin 125 := by
    have := int_to_float32_exact 125 (by norm_num)
    simpa using this
  have e6 : int_to_float binary32 6 = .fin 6 := by
    have := int_to_float32_exact 6 (by norm_num)
    simpa using this
  have e65536 : int_to_float binary32 65536 = .fin 65536 := by
    have := int_to_float32_exact 65536 (by norm_num)
    simpa using this
  have ecode : int_to_float binary32 (code : ℤ) = .fin (code : ℚ) := by
    have := int_to_float32_exact (code : ℤ) (by push_cast; rw [abs_of_nonneg hc0]; linarith)
    simpa using this
  have eprod : binary32.round (125 * (code : ℚ)) = .fin (125 * (code : ℚ)) := by
    have := round32_dyadic (125 * (code : ℤ)) 0 (by norm_num)
      (by push_cast; rw [abs_of_nonneg (by positivity)]; linarith)
    simpa using this
  have equot : binary32.round (125 * (code : ℚ) / 65536) = .fin (125 * (code : ℚ) / 65536) := by
    have := round32_dyadic (125 * (code : ℤ)) 16 (by norm_num)
      (by push_cast; rw [abs_of_nonneg (by positivity)]; linarith)
    have e : ((125 * (code : ℤ) : ℤ) : ℚ) / 2 ^ 16 = 125 * (code : ℚ) / 65536 := by
      push_cast; norm_num
    rw [e] at this
    exact this
  have ediff : binary32.round (125 * (code : ℚ) / 65536 - 6) =
      .fin (125 * (code : ℚ) / 65536 - 6) := by
    have := round32_dyadic (125 * (code : ℤ) - 393216) 16 (by norm_num)
      (by push_cast; rw [abs_lt]; constructor <;> linarith)
    have e : ((125 * (code : ℤ) - 393216 : ℤ) : ℚ) / 2 ^ 16 = 125 * (code : ℚ) / 65536 - 6 := by
      push_cast; ring
    rw [e] at this
    exact this
  rw [e125, e6, e65536, ecode]
  simp only [fmul, eprod, fdiv]
  rw [if_neg (by norm_num)]
  simp only [equot, fsub, ediff]

theorem read_bytes_two (bus : I2cBus) (addr b0 b1 : ℕ) (hb0 : b0 < 256) (hb1 : b1 < 256)
    (h : (bus.reply bus.trace.length (.read SI7006_ADDR addr 2)).data = [b0, b1]) :
    (read_bytes bus addr 2).2.1 = [b0, b1] := by
  have hr : List.range 2 = [0, 1] := by decide
  simp [read_bytes, i2c_transfer, h, hr, Nat.mod_eq_of_lt hb0, Nat.mod_eq_of_lt hb1]

/-- C11: for every pair of bytes `(h0, h1)` delivered by the humidity command read,
`si7006_get_humidity` returns exactly `125 * code / 65536 - 6` with
`code = h0 * 256 + h1` (first byte high); nothing is clamped: code 0 gives -6 and
code 65535 gives `125 * 65535 / 65536 - 6`, which is above 100. -/
theorem C11_humidity_formula (bus : I2cBus) (h0 h1 : ℕ) (hh0 : h0 < 256) (hh1 : h1 < 256)
    (hread : (bus.reply bus.trace.length
      (.read SI7006_ADDR Si7006_MEAS_REL_HUMIDITY_MASTER_MODE 2)).data = [h0, h1]) :
    (si7006_get_humidity bus).1 = .fin (125 * ((h0 * 256 + h1 : ℕ) : ℚ) / 65536 - 6) ∧
      (h0 * 256 + h1 = 0 → (si7006_get_humidity bus).1 = .fin (-6)) ∧
      (h0 * 256 + h1 = 65535 →
        (si7006_get_humidity bus).1 = .fin (125 * 65535 / 65536 - 6)) ∧
      (100 : ℚ) < 125 * 65535 / 65536 - 6 := by
  have hb := read_bytes_two bus Si7006_MEAS_REL_HUMIDITY_MASTER_MODE h0 h1 hh0 hh1 hread
  have hcode : ((h0 <<< 8) ||| h1) % 65536 = h0 * 256 + h1 := by
    rw [shift_or_bytes h0 h1 hh1]
    exact Nat.mod_eq_of_lt (by omega)
  have hval : (si7006_get_humidity bus).1 =
      .fin (125 * ((h0 * 256 + h1 : ℕ) : ℚ) / 65536 - 6) := by
    have := humidity_arith_exact (h0 * 256 + h1) (by omega)
    simp only [si7006_get_humidity, hb, List.getD_cons_zero, List.getD_cons_succ, hcode]
    exact this
  refine ⟨hval, fun h => ?_, fun h => ?_, by norm_num⟩
  · rw [hval, h]; norm_num
  · rw [hval, h]; norm_num

/-- C11 at the bytes 0xFF, 0xFF (code 65535). -/
theorem C11_humidity_formula_witness :
    (si7006_get_humidity (replyBus 0 0 [0xFF, 0xFF])).1 =
      .fin (125 * ((0xFF * 256 + 0xFF : ℕ) : ℚ) / 65536 - 6) :=
  (C11_humidity_formula (replyBus 0 0 [0xFF, 0xFF]) 0xFF 0xFF (by decide) (by decide) rfl).1

/-- One rounding with an absolute error bound: a value below `B = 2^(e+1)` in magnitude
rounds to a finite number at distance at most `B / 2^(p+1)`. -/
theorem round_abs (f : FloatFormat) (hp : 1 ≤ f.prec) (hemin : f.emin ≤ f.emax) (x B : ℚ)
    (e : ℤ) (hB : B = (2 : ℚ) ^ (e + 1)) (hx : |x| < B) (he1 : f.emin ≤ e)
    (he2 : e + 1 ≤ f.emax) :
    ∃ r : ℚ, f.round x = .fin r ∧ |r - x| ≤ B / 2 ^ (f.prec + 1) := by
  have hBpos : 0 < B := by rw [hB]; exact zpow_pos (by norm_num) _
  have hle : (2 : ℚ) ^ (e + 1) ≤ (2 : ℚ) ^ f.emax := zpow_le_zpow_right₀ (by norm_num) he2
  have hfin : f.round x = .fin (roundTo f.prec f.emin x) :=
    round_fin f x hp hemin (by rw [hB] at hx; linarith)
  refine ⟨_, hfin, ?_⟩
  by_cases h0 : x = 0
  · rw [h0, roundTo_zero]
    simp only [sub_zero, abs_zero]
    positivity
  · have hpos : 0 < |x| := abs_pos.mpr h0
    have h := roundTo_abs_err f.prec f.emin x h0
    have hlog : ilog2 |x| ≤ e := by
      have h1 : (2 : ℚ) ^ ilog2 |x| < (2 : ℚ) ^ (e + 1) := by
        rw [← hB]; exact lt_of_le_of_lt (ilog2_spec |x| hpos).1 hx
      have := (zpow_lt_zpow_iff_right₀ (by norm_num : (1 : ℚ) < 2)).mp h1
      omega
    have hmax : max (ilog2 |x|) f.emin - ((f.prec : ℤ) - 1) ≤ e - ((f.prec : ℤ) - 1) := by
      have : max (ilog2 |x|) f.emin ≤ e := max_le hlog he1
      omega
    have hpw : (2 : ℚ) ^ (max (ilog2 |x|) f.emin - ((f.prec : ℤ) - 1)) ≤
        (2 : ℚ) ^ (e - ((f.prec : ℤ) - 1)) := zpow_le_zpow_right₀ (by norm_num) hmax
    have e2 : (2 : ℚ) ^ (e - ((f.prec : ℤ) - 1)) / 2 = B / 2 ^ (f.prec + 1) := by
      rw [hB, zpow_sub₀ (by norm_num), zpow_sub₀ (by norm_num), zpow_add₀ (by norm_num),
        zpow_natCast, zpow_one, pow_succ]
      field_simp
    calc |roundTo f.prec f.emin x - x|
        ≤ (2 : ℚ) ^ (max (ilog2 |x|) f.emin - ((f.prec : ℤ) - 1)) / 2 := h
      _ ≤ (2 : ℚ) ^ (e - ((f.prec : ℤ) - 1)) / 2 := by linarith
      _ = B / 2 ^ (f.prec + 1) := e2

theorem lit64_17572 : lit64 (17572 / 100) = .fin (6182597863449559 / 35184372088832) := by
  decide!

theorem lit64_4685 : lit64 (4685 / 100) = .fin (6593551329447117 / 140737488355328) := by
  decide!

/-- The arithmetic of `si7006_get_temperature` on a 16-bit code: the result is finite and
within `2^-16` of the exact value of the formula. -/
theorem temperature_arith_near (code : ℕ) (hc : code ≤ 65535) :
    ∃ T : ℚ, to_float (fsub binary64
        (fdiv binary64
          (fmul binary64 (lit64 (17572 / 100)) (int_to_float binary32 code))
          (int_to_float binary32 65536))
        (lit64 (4685 / 100))) = .fin T ∧
      |T - (17572 / 100 * (code : ℚ) / 65536 - 4685 / 100)| ≤ 1 / 2 ^ 16 := by
  have hc' : (code : ℚ) ≤ 65535 := by exact_mod_cast hc
  have hc0 : (0 : ℚ) ≤ code := Nat.cast_nonneg code
  have e65536 : int_to_float binary32 65536 = .fin 65536 := by
    have := int_to_float32_exact 65536 (by norm_num)
    simpa using this
  have ecode : int_to_float binary32 (code : ℤ) = .fin (code : ℚ) := by
    have := int_to_float32_exact (code : ℤ) (by push_cast; rw [abs_of_nonneg hc0]; linarith)
    simpa using this
  obtain ⟨P, hP, heP⟩ := round_abs binary64 (by decide) (by decide)
    (6182597863449559 / 35184372088832 * (code : ℚ)) 16777216 23 (by norm_num)
    (by rw [abs_of_nonneg (by positivity)]; linarith) (by decide) (by decide)
  have heP' := abs_le.mp heP
  simp only [binary64] at heP'
  obtain ⟨Q, hQ, heQ⟩ := round_abs binary64 (by decide) (by decide) (P / 65536) 256 7
    (by norm_num) (by rw [abs_lt]; constructor <;> linarith [heP'.1, heP'.2])
    (by decide) (by decide)
  have heQ' := abs_le.mp heQ
  simp only [binary64] at heQ'
  obtain ⟨D, hD, heD⟩ := round_abs binary64 (by decide) (by decide)
    (Q - 6593551329447117 / 140737488355328) 256 7 (by norm_num)
    (by rw [abs_lt]; constructor <;> linarith [heP'.1, heP'.2, heQ'.1, heQ'.2])
    (by decide) (by decide)
  have heD' := abs_le.mp heD
  simp only [binary64] at heD'
  obtain ⟨L, hL, heL⟩ := round_abs binary32 (by decide) (by decide) D 256 7 (by norm_num)
    (by rw [abs_lt]; constructor <;>
      linarith [heP'.1, heP'.2, heQ'.1, heQ'.2, heD'.1, heD'.2])
    (by decide) (by decide)
  have heL' := abs_le.mp heL
  simp only [binary32] at heL'
  refine ⟨L, ?_, ?_⟩
  · rw [lit64_17572, lit64_4685, ecode, e65536]
    simp only [fmul, hP, fdiv]
    rw [if_neg (by norm_num)]
    simp only [hQ, fsub, hD, to_float, hL]
  · rw [abs_le]
    constructor <;> linarith [heP'.1, heP'.2, heQ'.1, heQ'.2, heD'.1, heD'.2, heL'.1, heL'.2]

/-- C12, as stated, fails: for the bytes 0, 0 (code 0) `si7006_get_temperature` returns
-6140723/131072 = -46.849998474121094, the `float` next to -46.85, and not -46.85. -/
theorem C12_counterexample :
    (si7006_get_temperature (replyBus 0 0 [0, 0])).1 = .fin (-6140723 / 131072) ∧
    (si7006_get_temperature (replyBus 0 0 [0, 0])).1 ≠
      .fin (17572 / 100 * ((0 * 256 + 0 : ℕ) : ℚ) / 65536 - 4685 / 100) ∧
    (-6140723 / 131072 : ℚ) ≠ -4685 / 100 := by
  refine ⟨by decide!, by decide!, by norm_num⟩

/-- C12, amended: for every pair of bytes `(t0, t1)` delivered by the temperature command
read, `si7006_get_temperature` returns a finite value that equals
`175.72 * code / 65536 - 46.85`, with `code = t0 * 256 + t1` (first byte high), up to an
absolute rounding error of at most `2^-16`. Code 0 gives
-6140723/131072 = -46.849998474121094 and code 65535 gives
8445449/65536 = 128.86732482910156. -/
theorem C12_temperature_formula (bus : I2cBus) (t0 t1 : ℕ) (ht0 : t0 < 256) (ht1 : t1 < 256)
    (hread : (bus.reply bus.trace.length
      (.read SI7006_ADDR Si7006_MEAS_TEMP_MASTER_MODE 2)).data = [t0, t1]) :
    (∃ T : ℚ, (si7006_get_temperature bus).1 = .fin T ∧
      |T - (17572 / 100 * ((t0 * 256 + t1 : ℕ) : ℚ) / 65536 - 4685 / 100)| ≤ 1 / 2 ^ 16) ∧
    (si7006_get_temperature (replyBus 0 0 [0, 0])).1 = .fin (-6140723 / 131072) ∧
    (si7006_get_temperature (replyBus 0 0 [0xFF, 0xFF])).1 = .fin (8445449 / 65536) := by
  have hb := read_bytes_two bus Si7006_MEAS_TEMP_MASTER_MODE t0 t1 ht0 ht1 hread
  have hcode : ((t0 <<< 8) ||| t1) % 65536 = t0 * 256 + t1 := by
    rw [shift_or_bytes t0 t1 ht1]
    exact Nat.mod_eq_of_lt (by omega)
  obtain ⟨T, hT, heT⟩ := temperature_arith_near (t0 * 256 + t1) (by omega)
  refine ⟨⟨T, ?_, heT⟩, by decide!, by decide!⟩
  simp only [si7006_get_temperature, hb, List.getD_cons_zero, List.getD_cons_succ, hcode]
  exact hT

/-- C12, amended, at the bytes 0x66, 0x4C (code 26188, about 23.367 degrees). -/
theorem C12_temperature_formula_witness :
    ∃ T : ℚ, (si7006_get_temperature (replyBus 0 0 [0x66, 0x4C])).1 = .fin T ∧
      |T - (17572 / 100 * ((0x66 * 256 + 0x4C : ℕ) : ℚ) / 65536 - 4685 / 100)| ≤ 1 / 2 ^ 16 :=
  (C12_temperature_formula (replyBus 0 0 [0x66, 0x4C]) 0x66 0x4C (by decide) (by decide) rfl).1

/-! ## Channels, start-up and bus failures -/

/-- C13: the three operations that look at the channel return `-ENOTSUP` on every channel
their device does not provide and leave the cached reading (and the caller's value) as
they were: the light-sensor fetch and get on AmbientTemperature, Humidity and every other
selector, the thermo-hygro get on Light, All and every other selector. The thermo-hygro
fetch does not look at the channel: at the failing input, channel Light with the bytes
0x66, 0x4C on the bus, it returns 0 and overwrites the cached temperature and humidity
(both 0 before) with 6125575/262144 and 720071/16384; it returns 0 on every channel. -/
theorem C13_unsupported_channel (ldev : ltr329als01_data) (sdev : si7006_data)
    (val : sensor_value) (n : ℕ) :
    (ltr329als01_sample_fetch ldev .SENSOR_CHAN_AMBIENT_TEMP = some (-ENOTSUP, ldev) ∧
      ltr329als01_sample_fetch ldev .SENSOR_CHAN_HUMIDITY = some (-ENOTSUP, ldev) ∧
      ltr329als01_sample_fetch ldev (.other n) = some (-ENOTSUP, ldev)) ∧
    (ltr329als01_channel_get ldev .SENSOR_CHAN_AMBIENT_TEMP val = some (-ENOTSUP, val) ∧
      ltr329als01_channel_get ldev .SENSOR_CHAN_HUMIDITY val = some (-ENOTSUP, val) ∧
      ltr329als01_channel_get ldev (.other n) val = some (-ENOTSUP, val)) ∧
    (si7006_channel_get sdev .SENSOR_CHAN_LIGHT val = some (-ENOTSUP, val) ∧
      si7006_channel_get sdev .SENSOR_CHAN_ALL val = some (-ENOTSUP, val) ∧
      si7006_channel_get sdev (.other n) val = some (-ENOTSUP, val)) ∧
    ((si7006_sample_fetch ⟨replyBus 0 0 [0x66, 0x4C], .fin 0, .fin 0⟩
        .SENSOR_CHAN_LIGHT).1 = 0 ∧
      (si7006_sample_fetch ⟨replyBus 0 0 [0x66, 0x4C], .fin 0, .fin 0⟩
        .SENSOR_CHAN_LIGHT).2.temperature = .fin (6125575 / 262144) ∧
      (si7006_sample_fetch ⟨replyBus 0 0 [0x66, 0x4C], .fin 0, .fin 0⟩
        .SENSOR_CHAN_LIGHT).2.humidity = .fin (720071 / 16384) ∧
      (si7006_sample_fetch ⟨replyBus 0 0 [0x66, 0x4C], .fin 0, .fin 0⟩
        .SENSOR_CHAN_LIGHT).1 ≠ -ENOTSUP) ∧
    (si7006_sample_fetch sdev .SENSOR_CHAN_LIGHT).1 = 0 ∧
    (si7006_sample_fetch sdev .SENSOR_CHAN_ALL).1 = 0 ∧
    (si7006_sample_fetch sdev (.other n)).1 = 0 := by
  refine ⟨⟨rfl, rfl, rfl⟩, ⟨rfl, rfl, rfl⟩, ⟨rfl, rfl, rfl⟩,
    ⟨rfl, by decide!, by decide!, by decide⟩, rfl, rfl, rfl⟩

/-- C15: the code at the failing input. On a bound bus whose MANUFAC_ID read succeeds and
whose two configuration writes fail (code -5), `ltr329als01_init` performs the read and
both writes and returns 0. In general its result is 0 exactly when the MANUFAC_ID read
returns 0, and `-EIO` otherwise: the codes of the two writes are not looked at. -/
theorem C15_init_ignores_write_failure (bus : I2cBus) (drv_data : ltr329als01_data) :
    ((ltr329als01_init (some (replyBus 0 (-5) [5])) drv_data).1 = 0 ∧
      (ltr329als01_init (some (replyBus 0 (-5) [5])) drv_data).2.i2c_dev.trace =
        [.read ALS_ADDR MANUFAC_ID_REG 1, .write ALS_ADDR ALS_MEAS_RATE_REG 0x1b,
          .write ALS_ADDR ALS_CONTR_REG 0x01] ∧
      ((replyBus 0 (-5) [5]).reply 1 (.write ALS_ADDR ALS_MEAS_RATE_REG 0x1b)).rc = -5 ∧
      ((replyBus 0 (-5) [5]).reply 2 (.write ALS_ADDR ALS_CONTR_REG 0x01)).rc = -5) ∧
    ((ltr329als01_init (some bus) drv_data).1 = 0 ↔
      (read_byte bus MANUFAC_ID_REG).1 = 0) ∧
    ((ltr329als01_init (some bus) drv_data).1 ≠ 0 →
      (ltr329als01_init (some bus) drv_data).1 = - EIO) := by
  refine ⟨⟨rfl, rfl, rfl, rfl⟩, ?_, ?_⟩
  · by_cases h : (read_byte bus MANUFAC_ID_REG).1 = 0
    · simp [ltr329als01_init, h]
    · simp [ltr329als01_init, h, EIO]
  · by_cases h : (read_byte bus MANUFAC_ID_REG).1 = 0
    · simp [ltr329als01_init, h]
    · simp [ltr329als01_init, h]

theorem read_byte_withCodes (rc : ℕ → I2cMsg → ℤ) (bus : I2cBus) (addr : ℕ) :
    (read_byte (withCodes rc bus) addr).2.1 = (read_byte bus addr).2.1 ∧
      (read_byte (withCodes rc bus) addr).2.2 = withCodes rc (read_byte bus addr).2.2 := by
  simp [read_byte, i2c_transfer, withCodes]

theorem read_bytes_withCodes (rc : ℕ → I2cMsg → ℤ) (bus : I2cBus) (addr k : ℕ) :
    (read_bytes (withCodes rc bus) addr k).2.1 = (read_bytes bus addr k).2.1 ∧
      (read_bytes (withCodes rc bus) addr k).2.2 = withCodes rc (read_bytes bus addr k).2.2 := by
  simp [read_bytes, i2c_transfer, withCodes]

theorem check_withCodes (rc : ℕ → I2cMsg → ℤ) (bus : I2cBus) :
    ALS_check_for_new_valid_data (withCodes rc bus) =
      ((ALS_check_for_new_valid_data bus).1,
        withCodes rc (ALS_check_for_new_valid_data bus).2) := by
  simp only [ALS_check_for_new_valid_data, (read_byte_withCodes rc bus _).1,
    (read_byte_withCodes rc bus _).2]

theorem channels_withCodes (rc : ℕ → I2cMsg → ℤ) (bus : I2cBus) :
    ALS_get_channels_data (withCodes rc bus) =
      ((ALS_get_channels_data bus).1, withCodes rc (ALS_get_channels_data bus).2) := by
  simp only [ALS_get_channels_data, (read_byte_withCodes rc _ _).1,
    (read_byte_withCodes rc _ _).2]

theorem gain_withCodes (rc : ℕ → I2cMsg → ℤ) (bus : I2cBus) :
    ALS_get_gain (withCodes rc bus) =
      ((ALS_get_gain bus).1, withCodes rc (ALS_get_gain bus).2) := by
  simp only [ALS_get_gain, (read_byte_withCodes rc bus _).1, (read_byte_withCodes rc bus _).2]

theorem integration_time_withCodes (rc : ℕ → I2cMsg → ℤ) (bus : I2cBus) :
    ALS_get_integration_time (withCodes rc bus) =
      ((ALS_get_integration_time bus).1, withCodes rc (ALS_get_integration_time bus).2) := by
  simp only [ALS_get_integration_time, (read_byte_withCodes rc bus _).1,
    (read_byte_withCodes rc bus _).2]

theorem lux_withCodes (rc : ℕ → I2cMsg → ℤ) (bus : I2cBus) :
    ALS_get_lux (withCodes rc bus) = ((ALS_get_lux bus).1, withCodes rc (ALS_get_lux bus).2) := by
  simp only [ALS_get_lux, channels_withCodes, gain_withCodes, integration_time_withCodes]

theorem ltr_fetch_withCodes (rc : ℕ → I2cMsg → ℤ) (dev : ltr329als01_data)
    (chan : sensor_channel) :
    ltr329als01_sample_fetch ⟨withCodes rc dev.i2c_dev, dev.lux_val⟩ chan =
      (ltr329als01_sample_fetch dev chan).map
        (fun r => (r.1, ⟨withCodes rc r.2.i2c_dev, r.2.lux_val⟩)) := by
  simp only [ltr329als01_sample_fetch, check_withCodes, lux_withCodes]
  split_ifs with h1 h2
  · cases float_to_u16 (ALS_get_lux (ALS_check_for_new_valid_data dev.i2c_dev).2).1 <;> rfl
  · rfl
  · rfl

theorem temperature_withCodes (rc : ℕ → I2cMsg → ℤ) (bus : I2cBus) :
    si7006_get_temperature (withCodes rc bus) =
      ((si7006_get_temperature bus).1, withCodes rc (si7006_get_temperature bus).2) := by
  simp only [si7006_get_temperature, (read_bytes_withCodes rc bus _ _).1,
    (read_bytes_withCodes rc bus _ _).2]

theorem humidity_withCodes (rc : ℕ → I2cMsg → ℤ) (bus : I2cBus) :
    si7006_get_humidity (withCodes rc bus) =
      ((si7006_get_humidity bus).1, withCodes rc (si7006_get_humidity bus).2) := by
  simp only [si7006_get_humidity, (read_bytes_withCodes rc bus _ _).1,
    (read_bytes_withCodes rc bus _ _).2]

/-- C16: the code at the failing input. On a bus whose every transfer fails (code -5)
the thermo-hygro fetch returns 0 and caches the values converted from the buffer contents
(bytes 0, 0: temperature -6140723/131072, humidity -6), and the light-sensor fetch
returns 0 when the buffers hold the byte 4 (status with bit 2 set). In general neither
fetch looks at a transfer return code: with the return codes of all transfers replaced
by arbitrary ones (same buffer contents), the thermo-hygro fetch returns 0 and caches the
same temperature and humidity, and the light-sensor fetch has the same outcome, return
value and cached lux; the light-sensor fetch returns only 0, `EAGAIN` (no new data) or
`-ENOTSUP` (channel). -/
theorem C16_fetch_ignores_transfer_codes (rc : ℕ → I2cMsg → ℤ) (sdev : si7006_data)
    (ldev : ltr329als01_data) (chan : sensor_channel) :
    ((read_bytes (replyBus (-5) (-5) [0, 0]) Si7006_MEAS_TEMP_MASTER_MODE 2).1 = -5 ∧
      (read_bytes (replyBus (-5) (-5) [0, 0]) Si7006_MEAS_REL_HUMIDITY_MASTER_MODE 2).1 =
        -5 ∧
      (si7006_sample_fetch ⟨replyBus (-5) (-5) [0, 0], .fin 1, .fin 1⟩
        .SENSOR_CHAN_AMBIENT_TEMP).1 = 0 ∧
      (si7006_sample_fetch ⟨replyBus (-5) (-5) [0, 0], .fin 1, .fin 1⟩
        .SENSOR_CHAN_AMBIENT_TEMP).2.temperature = .fin (-6140723 / 131072) ∧
      (si7006_sample_fetch ⟨replyBus (-5) (-5) [0, 0], .fin 1, .fin 1⟩
        .SENSOR_CHAN_AMBIENT_TEMP).2.humidity = .fin (-6) ∧
      (read_byte (replyBus (-5) (-5) [4]) ALS_STATUS_REG).1 = -5 ∧
      (ltr329als01_sample_fetch ⟨replyBus (-5) (-5) [4], 0⟩ .SENSOR_CHAN_LIGHT).map
        (fun r => r.1) = some 0) ∧
    (si7006_sample_fetch sdev chan).1 = 0 ∧
    (si7006_sample_fetch ⟨withCodes rc sdev.i2c_dev, sdev.temperature, sdev.humidity⟩
      chan).1 = 0 ∧
    (si7006_sample_fetch ⟨withCodes rc sdev.i2c_dev, sdev.temperature, sdev.humidity⟩
      chan).2.temperature = (si7006_sample_fetch sdev chan).2.temperature ∧
    (si7006_sample_fetch ⟨withCodes rc sdev.i2c_dev, sdev.temperature, sdev.humidity⟩
      chan).2.humidity = (si7006_sample_fetch sdev chan).2.humidity ∧
    (ltr329als01_sample_fetch ⟨withCodes rc ldev.i2c_dev, ldev.lux_val⟩ chan).map
        (fun r => (r.1, r.2.lux_val)) =
      (ltr329als01_sample_fetch ldev chan).map (fun r => (r.1, r.2.lux_val)) ∧
    (∀ r, ltr329als01_sample_fetch ldev chan = some r →
      r.1 = 0 ∨ r.1 = EAGAIN ∨ r.1 = -ENOTSUP) := by
  refine ⟨⟨rfl, rfl, rfl, by decide!, by decide!, rfl, by decide!⟩, rfl, rfl, ?_, ?_, ?_, ?_⟩
  · simp only [si7006_sample_fetch, temperature_withCodes]
  · simp only [si7006_sample_fetch, temperature_withCodes, humidity_withCodes]
  · rw [ltr_fetch_withCodes]
    cases ltr329als01_sample_fetch ldev chan <;> rfl
  · intro r hr
    simp only [ltr329als01_sample_fetch] at hr
    split_ifs at hr with h1 h2
    · cases hf : float_to_u16 (ALS_get_lux (ALS_check_for_new_valid_data ldev.i2c_dev).2).1 with
      | none => rw [hf] at hr; simp at hr
      | some v =>
        rw [hf] at hr
        simp only [Option.some.injEq] at hr
        left; rw [← hr]
    · simp only [Option.some.injEq] at hr
      right; left; rw [← hr]
    · simp only [Option.some.injEq] at hr
      right; right; rw [← hr]

/-- C17, as stated, fails: the three distinct status bytes 0x04, 0x05 and 0x44 all make
`ALS_check_for_new_valid_data` return true, and the number of status bytes that do is
not 2. -/
theorem C17_counterexample :
    (ALS_check_for_new_valid_data (regBus (alsRegs 0x04 0 0 0 0 0 0))).1 = true ∧
    (ALS_check_for_new_valid_data (regBus (alsRegs 0x05 0 0 0 0 0 0))).1 = true ∧
    (ALS_check_for_new_valid_data (regBus (alsRegs 0x44 0 0 0 0 0 0))).1 = true ∧
    ((List.range 256).filter
      (fun s => (ALS_check_for_new_valid_data (regBus (alsRegs s 0 0 0 0 0 0))).1)).length ≠
        2 := by
  refine ⟨by decide!, by decide!, by decide!, by decide!⟩

/-- C17, amended: over all 256 status bytes, `ALS_check_for_new_valid_data` is true
exactly for the bytes with bit 2 set and bit 7 clear; these are 64 of the 256 bytes, and
the check is false for the other 192. -/
theorem C17_check_new_data_count :
    ((List.range 256).filter
      (fun s => (ALS_check_for_new_valid_data (regBus (alsRegs s 0 0 0 0 0 0))).1)).length =
        64 ∧
    ((List.range 256).filter
      (fun s => !(ALS_check_for_new_valid_data (regBus (alsRegs s 0 0 0 0 0 0))).1)).length =
        192 ∧
    ((List.range 256).filter (fun s => s.testBit 2 && !s.testBit 7)).length = 64 ∧
    (∀ s ∈ List.range 256,
      (ALS_check_for_new_valid_data (regBus (alsRegs s 0 0 0 0 0 0))).1 =
        (s.testBit 2 && !s.testBit 7)) ∧
    (∀ (bus : I2cBus) (s : ℕ), s < 256 →
      (bus.reply bus.trace.length (.read ALS_ADDR ALS_STATUS_REG 1)).data = [s] →
      (ALS_check_for_new_valid_data bus).1 = (s.testBit 2 && !s.testBit 7)) := by
  refine ⟨by decide!, by decide!, by decide!, by decide!, ?_⟩
  intro bus s hs hread
  have hd := read_byte_data bus ALS_STATUS_REG s hs hread
  have hbits := byte_status_bits ⟨s, hs⟩
  simp only at hbits
  simp only [ALS_check_for_new_valid_data, hd]
  by_cases hc : s &&& 0x04 ≠ 0 ∧ s &&& 0x80 = 0
  · have := hbits.mp hc
    rw [if_pos hc, this.1, this.2]; rfl
  · rw [if_neg hc]
    by_cases h2 : s.testBit 2 = true
    · by_cases h7 : s.testBit 7 = true
      · rw [h2, h7]; rfl
      · exact absurd (hbits.mpr ⟨h2, by simpa using h7⟩) hc
    · have : s.testBit 2 = false := by simpa using h2
      rw [this]; rfl

/-- C18: the start-up sequence of `ltr329als01_init` on a bound bus whose MANUFAC_ID read
succeeds is the read followed by the writes of 0x1B to MEAS_RATE and 0x01 to CONTR.
Decoded by the driver, the MEAS_RATE byte 0x1B gives the integration time 400 ms and the
CONTR byte 0x01 gives the gain 1, which is not the sentinel; the `float` denominator
`ALS_GAIN * ALS_INT` of the lux formula is then exactly 4. -/
theorem C18_startup_configuration (binding bus1 bus2 : I2cBus) (drv_data : ltr329als01_data)
    (hid : (read_byte binding MANUFAC_ID_REG).1 = 0)
    (hmeas : (bus1.reply bus1.trace.length (.read ALS_ADDR ALS_MEAS_RATE_REG 1)).data =
      [0x1B])
    (hcontr : (bus2.reply bus2.trace.length (.read ALS_ADDR ALS_CONTR_REG 1)).data = [0x01]) :
    (ltr329als01_init (some binding) drv_data).1 = 0 ∧
    (ltr329als01_init (some binding) drv_data).2.i2c_dev.trace = binding.trace ++
      [.read ALS_ADDR MANUFAC_ID_REG 1, .write ALS_ADDR ALS_MEAS_RATE_REG 0x1B,
        .write ALS_ADDR ALS_CONTR_REG 0x01] ∧
    (ALS_get_integration_time bus1).1 = 400 ∧
    (ALS_get_gain bus2).1 = 1 ∧ (ALS_get_gain bus2).1 ≠ RESERVED ∧
    fmul binary32 (int_to_float binary32 (ALS_get_gain bus2).1)
      (fdiv binary32 (int_to_float binary32 (ALS_get_integration_time bus1).1)
        (int_to_float binary32 100)) = .fin 4 ∧
    ((ALS_get_gain bus2).1 : ℚ) * (((ALS_get_integration_time bus1).1 : ℚ) / 100) = 4 := by
  have ht : (ALS_get_integration_time bus1).1 = 400 := by
    have hd := read_byte_data bus1 ALS_MEAS_RATE_REG 0x1B (by decide) hmeas
    simp only [ALS_get_integration_time, hd]
    rfl
  have hg : (ALS_get_gain bus2).1 = 1 := by
    have hd := read_byte_data bus2 ALS_CONTR_REG 0x01 (by decide) hcontr
    simp only [ALS_get_gain, hd]
    rfl
  refine ⟨?_, ?_, ht, hg, ?_, ?_, ?_⟩
  · simp [ltr329als01_init, hid]
  · simp only [ltr329als01_init, hid, if_true]
    simp [write_byte, read_byte, i2c_transfer]
  · rw [hg]; decide
  · rw [hg, ht]; decide!
  · rw [hg, ht]; norm_num

/-- C18 on a bus whose registers hold the start-up configuration. -/
theorem C18_startup_configuration_witness :
    (ALS_get_integration_time (regBus (alsRegs 0 0 0 0 0 0x01 0x1B))).1 = 400 ∧
    (ALS_get_gain (regBus (alsRegs 0 0 0 0 0 0x01 0x1B))).1 = 1 :=
  ⟨(C18_startup_configuration (regBus (alsRegs 0 0 0 0 0 0x01 0x1B))
      (regBus (alsRegs 0 0 0 0 0 0x01 0x1B)) (regBus (alsRegs 0 0 0 0 0 0x01 0x1B))
      ⟨regBus (alsRegs 0 0 0 0 0 0 0), 0⟩ rfl rfl rfl).2.2.1,
    (C18_startup_configuration (regBus (alsRegs 0 0 0 0 0 0x01 0x1B))
      (regBus (alsRegs 0 0 0 0 0 0x01 0x1B)) (regBus (alsRegs 0 0 0 0 0 0x01 0x1B))
      ⟨regBus (alsRegs 0 0 0 0 0 0 0), 0⟩ rfl rfl rfl).2.2.2.1⟩

/-! ## Sign and range of the lux -/

theorem flt_nan_left (v : FloatVal) : flt .nan v = false := by
  cases v <;> rfl

/-- With both channel counts zero the ratio is `0 / 0`, not a number; every comparison is
false and `ALS_get_lux` takes the last branch. -/
theorem lux_arith_zero (g t : ℤ) :
    fdiv binary32 (int_to_float binary32 ((0 : ℕ) : ℤ))
        (int_to_float binary32 (((0 : ℕ) : ℤ) + ((0 : ℕ) : ℤ))) = .nan ∧
      ALS_get_lux_arith 0 0 g t = .fin 0 := by
  have ez : int_to_float binary32 0 = .fin 0 := by
    have := int_to_float32_exact 0 (by norm_num)
    simpa using this
  have hr : fdiv binary32 (int_to_float binary32 ((0 : ℕ) : ℤ))
      (int_to_float binary32 (((0 : ℕ) : ℤ) + ((0 : ℕ) : ℤ))) = .nan := by
    simp only [Nat.cast_zero, add_zero, ez, fdiv, if_true]
  refine ⟨hr, ?_⟩
  simp only [ALS_get_lux_arith, hr, flt_nan_left, Bool.false_and, Bool.false_eq_true, if_false,
    ez]

/-- From a relative error bound to the sign and the size of the rounded quotient. -/
theorem near_sign_size (L X D : ℚ) (hD : 0 < D) (hX : 0 < X)
    (hb : |L - X / D| ≤ X / D / 2 ^ 23) : 0 < L ∧ L * D ≤ X + X / 2 ^ 23 := by
  have hqpos : 0 < X / D := div_pos hX hD
  have hb' := abs_le.mp hb
  constructor
  · have : X / D / 2 ^ 23 ≤ X / D / 2 :=
      div_le_div_of_nonneg_left hqpos.le (by norm_num) (by norm_num)
    linarith [hb'.1]
  · have h1 : L ≤ X / D + X / D / 2 ^ 23 := by linarith [hb'.2]
    have h2 := mul_le_mul_of_nonneg_right h1 hD.le
    have h3 : (X / D + X / D / 2 ^ 23) * D = X + X / 2 ^ 23 := by
      field_simp
      ring
    linarith

/-- Sign and size of the lux for counts not both zero, a numeric gain and an integration
time of the table: the lux is finite and non-negative, positive outside the zero band, and
its product with the denominator is at most 188760. -/
theorem lux_arith_range (x y : ℕ) (hx : x ≤ 65535) (hy : y ≤ 65535) (hs : 0 < x + y)
    (g t : ℤ) (hg : g ∈ ([1, 2, 4, 8, 48, 96] : List ℤ)) (ht : t ∈ integration_time_lookup) :
    ∃ L : ℚ, ALS_get_lux_arith x y g t = .fin L ∧ 0 ≤ L ∧
      L * ((g : ℚ) * ((t : ℚ) / 100)) ≤ 188760 ∧
      (9 * (x + y) < 20 * y → L * ((g : ℚ) * ((t : ℚ) / 100)) ≤ 175700) ∧
      (20 * y < 17 * (x + y) → 0 < L) := by
  obtain ⟨hD, -⟩ := denom_bounds g t hg ht
  have hDpos : (0 : ℚ) < (g : ℚ) * ((t : ℚ) / 100) := by linarith
  obtain ⟨L, hL, b1, b2, b3, b4⟩ := lux_arith_spec x y hx hy hs g t hg ht
  have hx0 : (0 : ℚ) ≤ x := Nat.cast_nonneg x
  have hy0 : (0 : ℚ) ≤ y := Nat.cast_nonneg y
  have hx' : (x : ℚ) ≤ 65535 := by exact_mod_cast hx
  have hy' : (y : ℚ) ≤ 65535 := by exact_mod_cast hy
  have hs' : (1 : ℚ) ≤ x + y := by exact_mod_cast hs
  have key : ∀ X : ℚ, 0 < X →
      |L - X / ((g : ℚ) * ((t : ℚ) / 100))| ≤ X / ((g : ℚ) * ((t : ℚ) / 100)) / 2 ^ 23 →
      0 < L ∧ L * ((g : ℚ) * ((t : ℚ) / 100)) ≤ X + X / 2 ^ 23 :=
    fun X hX0 hb => near_sign_size L X _ hDpos hX0 hb
  by_cases h1 : 20 * y ≤ 9 * (x + y)
  · obtain ⟨k1, k2⟩ := key (17743 / 10000 * x + 11059 / 10000 * y) (by nlinarith)
      (b1 h1)
    exact ⟨L, hL, k1.le, by linarith, fun h => by omega, fun _ => k1⟩
  · by_cases h2 : 25 * y ≤ 16 * (x + y)
    · have hr : 9 * (y : ℚ) ≤ 16 * x := by
        have : 9 * y ≤ 16 * x := by omega
        exact_mod_cast this
      have hr2 : 9 * (x : ℚ) < 11 * y := by
        have : 9 * x < 11 * y := by omega
        exact_mod_cast this
      have hx1 : (1 : ℚ) ≤ x := by
        have : 1 ≤ x := by omega
        exact_mod_cast this
      obtain ⟨k1, k2⟩ := key (42785 / 10000 * x - 19548 / 10000 * y) (by linarith)
        (b2 (by omega) h2)
      exact ⟨L, hL, k1.le, by linarith, fun _ => by linarith, fun _ => k1⟩
    · by_cases h3 : 20 * y < 17 * (x + y)
      · obtain ⟨k1, k2⟩ := key (5926 / 10000 * x + 1185 / 10000 * y) (by nlinarith)
          (b3 (by omega) h3)
        exact ⟨L, hL, k1.le, by linarith, fun _ => by linarith, fun _ => k1⟩
      · have hz := b4 (by omega)
        refine ⟨L, hL, by rw [hz], by rw [hz]; norm_num, fun _ => by rw [hz]; norm_num,
          fun h => absurd h h3⟩

/-- C14: when both channel counts are zero, `ALS_get_lux` returns 0 lux whatever the
control and measurement-rate registers hold (the sentinel gain included): the ratio
`0 / 0` is not a number, every comparison with it is false, and the last branch assigns
0. -/
theorem C14_zero_counts (bus : I2cBus)
    (hzero : (ALS_get_channels_data bus).1.1 + (ALS_get_channels_data bus).1.2 = 0) :
    (ALS_get_lux bus).1 = .fin 0 ∧
      fdiv binary32 (int_to_float binary32 ((0 : ℕ) : ℤ))
        (int_to_float binary32 (((0 : ℕ) : ℤ) + ((0 : ℕ) : ℤ))) = .nan := by
  have h0 : (ALS_get_channels_data bus).1.1 = 0 := by omega
  have h1 : (ALS_get_channels_data bus).1.2 = 0 := by omega
  refine ⟨?_, (lux_arith_zero 0 0).1⟩
  simp only [ALS_get_lux, h0, h1]
  exact (lux_arith_zero _ _).2

/-- C14 on a bus whose data registers are zero and whose control byte selects a RESERVED
gain. -/
theorem C14_zero_counts_witness :
    (ALS_get_channels_data (regBus (alsRegs 4 0 0 0 0 0x10 0x1B))).1.1 +
        (ALS_get_channels_data (regBus (alsRegs 4 0 0 0 0 0x10 0x1B))).1.2 = 0 ∧
      (ALS_get_lux (regBus (alsRegs 4 0 0 0 0 0x10 0x1B))).1 = .fin 0 :=
  ⟨by decide, (C14_zero_counts (regBus (alsRegs 4 0 0 0 0 0x10 0x1B)) (by decide)).1⟩

/-- C19: for all channel counts, every numeric gain (1, 2, 4, 8, 48, 96) and every
integration time of the table, the lux computed by `ALS_get_lux` is finite and
non-negative. In particular, whenever `0.45 ≤ ch1 / (ch0 + ch1) < 0.64` the second-band
numerator `4.2785 ch0 - 1.9548 ch1` is positive, and so is the computed lux. -/
theorem C19_lux_nonneg (bus : I2cBus) (ch0 ch1 : ℕ) (g t : ℤ)
    (hch : (ALS_get_channels_data bus).1 = (ch0, ch1))
    (hg : (ALS_get_gain (ALS_get_channels_data bus).2).1 = g)
    (ht : (ALS_get_integration_time (ALS_get_gain (ALS_get_channels_data bus).2).2).1 = t)
    (hnum : g ∈ ([1, 2, 4, 8, 48, 96] : List ℤ)) :
    ch0 ≤ 65535 ∧ ch1 ≤ 65535 ∧ t ∈ ([100, 50, 200, 400, 150, 250, 300, 350] : List ℤ) ∧
      ∃ L : ℚ, (ALS_get_lux bus).1 = .fin L ∧ 0 ≤ L ∧
        (45 / 100 ≤ (ch1 : ℚ) / ((ch0 : ℚ) + ch1) → (ch1 : ℚ) / ((ch0 : ℚ) + ch1) < 64 / 100 →
          0 < 42785 / 10000 * (ch0 : ℚ) - 19548 / 10000 * ch1 ∧ 0 < L) := by
  have hle := ALS_get_channels_data_le bus
  rw [hch] at hle
  obtain ⟨hx, hy⟩ := hle
  have htm := ALS_get_integration_time_mem (ALS_get_gain (ALS_get_channels_data bus).2).2
  rw [ht] at htm
  have hlux : (ALS_get_lux bus).1 = ALS_get_lux_arith ch0 ch1 g t := by
    simp only [ALS_get_lux, hch, hg, ht]
  refine ⟨hx, hy, htm, ?_⟩
  rcases Nat.eq_zero_or_pos (ch0 + ch1) with hz | hpos
  · have h0 : ch0 = 0 := by omega
    have h1 : ch1 = 0 := by omega
    subst h0 h1
    refine ⟨0, by rw [hlux]; exact (lux_arith_zero g t).2, le_rfl, fun h => ?_⟩
    norm_num at h
  · obtain ⟨L, hL, hL0, -, -, hLpos⟩ := lux_arith_range ch0 ch1 hx hy hpos g t hnum htm
    refine ⟨L, by rw [hlux]; exact hL, hL0, fun h45 h64 => ?_⟩
    have k64 := (cross_lt_iff ch0 ch1 16 25 hpos (by decide)).mp
      (by have e : ((16 : ℕ) : ℚ) / (25 : ℕ) = 64 / 100 := by norm_num
          rw [e]; exact h64)
    have hr : 9 * (ch1 : ℚ) < 16 * ch0 := by
      have : 9 * ch1 < 16 * ch0 := by omega
      exact_mod_cast this
    have hy0 : (0 : ℚ) ≤ ch1 := Nat.cast_nonneg ch1
    exact ⟨by linarith, hLpos (by omega)⟩

/-- C19 at ch0 = 36, ch1 = 43 (ratio about 0.544), gain 96 and 350 ms. -/
theorem C19_lux_nonneg_witness :
    ∃ L : ℚ, (ALS_get_lux (regBus (alsRegs 4 36 0 43 0 0x1C 0x38))).1 = .fin L ∧ 0 ≤ L :=
  have h := (C19_lux_nonneg (regBus (alsRegs 4 36 0 43 0 0x1C 0x38)) 36 43 96 350
    (by decide!) (by decide!) (by decide!) (by decide)).2.2.2
  ⟨h.choose, h.choose_spec.1, h.choose_spec.2.1⟩

/-- C20: under the start-up configuration (gain 1, integration time 400 ms, denominator
4), for all channel counts the lux computed by `ALS_get_lux` is finite and lies in
`[0, 65535]`; the fetch is therefore defined, returns 0, and the value it stores in the
`uint16_t` field `lux_val` is the lux truncated toward zero, itself in `0..65535`. -/
theorem C20_startup_lux_in_range (dev : ltr329als01_data) (chan : sensor_channel)
    (hchan : chan = .SENSOR_CHAN_LIGHT ∨ chan = .SENSOR_CHAN_ALL)
    (hnew : (ALS_check_for_new_valid_data dev.i2c_dev).1 = true)
    (hg : (ALS_get_gain (ALS_get_channels_data
      (ALS_check_for_new_valid_data dev.i2c_dev).2).2).1 = 1)
    (ht : (ALS_get_integration_time (ALS_get_gain (ALS_get_channels_data
      (ALS_check_for_new_valid_data dev.i2c_dev).2).2).2).1 = 400) :
    ∃ L : ℚ, (ALS_get_lux (ALS_check_for_new_valid_data dev.i2c_dev).2).1 = .fin L ∧
      0 ≤ L ∧ L ≤ 65535 ∧
      ∃ dev1, ltr329als01_sample_fetch dev chan = some (0, dev1) ∧
        (dev1.lux_val : ℤ) = truncate L ∧ dev1.lux_val ≤ 65535 := by
  have hc : chan = .SENSOR_CHAN_ALL ∨ chan = .SENSOR_CHAN_LIGHT := hchan.symm
  obtain ⟨hx, hy⟩ := ALS_get_channels_data_le (ALS_check_for_new_valid_data dev.i2c_dev).2
  have hlux : (ALS_get_lux (ALS_check_for_new_valid_data dev.i2c_dev).2).1 =
      ALS_get_lux_arith (ALS_get_channels_data (ALS_check_for_new_valid_data dev.i2c_dev).2).1.1
        (ALS_get_channels_data (ALS_check_for_new_valid_data dev.i2c_dev).2).1.2 1 400 := by
    simp only [ALS_get_lux, hg, ht]
  -- the lux is finite and in range
  have hrange : ∃ L : ℚ,
      (ALS_get_lux (ALS_check_for_new_valid_data dev.i2c_dev).2).1 = .fin L ∧
        0 ≤ L ∧ L ≤ 65535 := by
    rcases Nat.eq_zero_or_pos
      ((ALS_get_channels_data (ALS_check_for_new_valid_data dev.i2c_dev).2).1.1 +
        (ALS_get_channels_data (ALS_check_for_new_valid_data dev.i2c_dev).2).1.2) with hz | hpos
    · have h0 : (ALS_get_channels_data (ALS_check_for_new_valid_data dev.i2c_dev).2).1.1 = 0 := by
        omega
      have h1 : (ALS_get_channels_data (ALS_check_for_new_valid_data dev.i2c_dev).2).1.2 = 0 := by
        omega
      refine ⟨0, ?_, le_rfl, by norm_num⟩
      rw [hlux, h0, h1]
      exact (lux_arith_zero 1 400).2
    · obtain ⟨L, hL, hL0, hsize, -, -⟩ := lux_arith_range _ _ hx hy hpos 1 400
        (by decide) (by decide)
      refine ⟨L, by rw [hlux]; exact hL, hL0, ?_⟩
      have e : L * (((1 : ℤ) : ℚ) * (((400 : ℤ) : ℚ) / 100)) = L * 4 := by norm_num
      rw [e] at hsize
      linarith
  obtain ⟨L, hL, hL0, hL1⟩ := hrange
  -- the conversion to `uint16_t` is defined
  have htr0 : 0 ≤ truncate L := (truncate_sign L).1 hL0
  have htr1 : truncate L ≤ 65535 := by
    have h1 := truncate_abs_le L
    have h2 : ((truncate L : ℤ) : ℚ) ≤ L := by
      have h3 : (0 : ℚ) ≤ (truncate L : ℚ) := by exact_mod_cast htr0
      rw [abs_of_nonneg h3, abs_of_nonneg hL0] at h1
      exact h1
    have h4 : ((truncate L : ℤ) : ℚ) ≤ ((65535 : ℤ) : ℚ) := by push_cast; linarith
    exact_mod_cast h4
  have hconv : float_to_u16 (.fin L) = some (truncate L) := by
    simp only [float_to_u16, float_to_int, if_pos (And.intro htr0 htr1)]
  refine ⟨L, hL, hL0, hL1,
    ⟨(ALS_get_lux (ALS_check_for_new_valid_data dev.i2c_dev).2).2, (truncate L).toNat⟩,
    ?_, ?_, ?_⟩
  · simp only [ltr329als01_sample_fetch, if_pos hc, hnew, if_true, hL, hconv]
  · exact Int.toNat_of_nonneg htr0
  · show (truncate L).toNat ≤ 65535
    omega

/-- C20 at ch0 = 65535, ch1 = 53619 (the largest first-band lux) with the start-up
configuration in the control and measurement-rate registers. -/
theorem C20_startup_lux_in_range_witness :
    ∃ L : ℚ, (ALS_get_lux (ALS_check_for_new_valid_data
        (ltr329als01_data.mk (regBus (alsRegs 4 0xFF 0xFF 0x73 0xD1 0x01 0x1B))
          0).i2c_dev).2).1 = .fin L ∧
      0 ≤ L ∧ L ≤ 65535 :=
  have h := C20_startup_lux_in_range ⟨regBus (alsRegs 4 0xFF 0xFF 0x73 0xD1 0x01 0x1B), 0⟩
    .SENSOR_CHAN_LIGHT (Or.inl rfl) (by decide!) (by decide!) (by decide!)
  ⟨h.choose, h.choose_spec.1, h.choose_spec.2.1, h.choose_spec.2.2.1⟩

end Sensor
